import Mathlib

/-! Rohie I/O scheduler (`block/rohie-iosched.c`)

A shallow embedding of the scheduling core of the Rohie I/O scheduler and
theorems about it.

* A `struct request` is a record carrying the identity of its intrusive
  `queuelist` node (`id`), the two flags the scheduler reads from it
  (`rq_is_sync`, `rq_data_dir`) and its `fifo_time`.
* A kernel `list_head` is a Lean list; the first element of the Lean list is
  `head->next`, the last one is `head->prev`.
* `unsigned int` counters wrap modulo `2 ^ 32`; an `int` compared with an
  `unsigned int` is converted to `unsigned int` first.
* The clock (`jiffies`) and the deadlines (`fifo_time`) are tick counts held as
  integers. The sum that gives a deadline is computed in `unsigned long` and wraps
  modulo `2 ^ 64`; `time_after` and `time_before` are the strict order on tick counts.
-/

namespace Rohie

/-! ## Constants -/

/-- `READ` of `linux/fs.h`: data direction 0. -/
abbrev READ : Bool := false

/-- `WRITE` of `linux/fs.h`: data direction 1. -/
abbrev WRITE : Bool := true

/-- First enumerator of `enum { ASYNC, SYNC }`. -/
abbrev ASYNC : Bool := false

/-- Second enumerator of `enum { ASYNC, SYNC }`. -/
abbrev SYNC : Bool := true

/-- Number of values of an `unsigned int`. -/
def UINT_MOD : Nat := 2 ^ 32

/-- Conversion of an `int` operand to `unsigned int`, as C performs it when an
`int` is compared with an `unsigned int`. -/
def to_uint (x : Int) : Nat := (x % (UINT_MOD : Int)).toNat

/-- Number of values of an `unsigned long`, the type of `jiffies` and of
`rq->fifo_time`: 64 bits on the arm64 target of this kernel tree. -/
def ULONG_MOD : Nat := 2 ^ 64

/-- The value an `unsigned long` holds after an addition whose exact result is `x`:
`x` modulo `2 ^ 64`. An `int` operand is converted to `unsigned long` first, which the
reduction of the exact sum accounts for. -/
def to_ulong (x : Int) : Int := x % (ULONG_MOD : Int)

/-! ## Data model -/

/-- The part of `struct request` the scheduler uses. `id` stands for the address
of the request, that is the identity of its `queuelist` node. -/
structure request where
  id : Nat
  sync : Bool
  data_dir : Bool
  fifo_time : Int
deriving DecidableEq, Repr

/-- Mirror of `struct rohie_data`. The array `fifo_list[2][2]` is kept as four
lists and the array `fifo_expire[2][2]` as four integers; `fifo_list` and
`fifo_expire` below are the indexed views. -/
structure rohie_data where
  fifo_async_read : List request
  fifo_async_write : List request
  fifo_sync_read : List request
  fifo_sync_write : List request
  batched : Nat
  starved : Nat
  expire_async_read : Int
  expire_async_write : Int
  expire_sync_read : Int
  expire_sync_write : Int
  fifo_batch : Int
  writes_starved : Int
deriving DecidableEq, Repr

/-- Indexed view `td->fifo_list[sync][data_dir]`. -/
def fifo_list (td : rohie_data) (sync data_dir : Bool) : List request :=
  match sync, data_dir with
  | false, false => td.fifo_async_read
  | false, true => td.fifo_async_write
  | true, false => td.fifo_sync_read
  | true, true => td.fifo_sync_write

/-- Indexed view `td->fifo_expire[sync][data_dir]`. -/
def fifo_expire (td : rohie_data) (sync data_dir : Bool) : Int :=
  match sync, data_dir with
  | false, false => td.expire_async_read
  | false, true => td.expire_async_write
  | true, false => td.expire_sync_read
  | true, true => td.expire_sync_write

/-- Assignment to the list `td->fifo_list[sync][data_dir]`. -/
def set_fifo_list (td : rohie_data) (sync data_dir : Bool) (l : List request) : rohie_data :=
  match sync, data_dir with
  | false, false => { td with fifo_async_read := l }
  | false, true => { td with fifo_async_write := l }
  | true, false => { td with fifo_sync_read := l }
  | true, true => { td with fifo_sync_write := l }

/-- Apply a list transformation to each of the four lists. Operations on a
`queuelist` node act on whichever list the node is linked in. -/
def map_lists (f : List request → List request) (td : rohie_data) : rohie_data :=
  { td with
    fifo_async_read := f td.fifo_async_read
    fifo_async_write := f td.fifo_async_write
    fifo_sync_read := f td.fifo_sync_read
    fifo_sync_write := f td.fifo_sync_write }

/-- Every queued request, in the order Async-Write, Async-Read, Sync-Write,
Sync-Read. -/
def all_rqs (td : rohie_data) : List request :=
  fifo_list td ASYNC WRITE ++ fifo_list td ASYNC READ ++
    fifo_list td SYNC WRITE ++ fifo_list td SYNC READ

/-- A node is linked at one place only: no request identity occurs twice in
the four lists. -/
def nodes_distinct (td : rohie_data) : Prop :=
  ((all_rqs td).map request.id).Nodup

instance (td : rohie_data) : Decidable (nodes_distinct td) := by
  unfold nodes_distinct; infer_instance

/-- The queued request whose node is `id`, if that node is linked in one of the
four lists; `none` corresponds to `list_empty(&rq->queuelist)`. -/
def find_rq (td : rohie_data) (id : Nat) : Option request :=
  (all_rqs td).find? (fun r => r.id == id)

/-! ## Kernel list and time primitives -/

/-- The list primitive `list_add(new, head)` of `linux/list.h`, used with `head` the
list head itself. `list_add` links `new` right after `head` (`list_add_tail` is the
one that links it before `head`, at the end), so `new` comes in front of every entry
of the list. -/
def list_add (new : request) (l : List request) : List request :=
  new :: l

/-- The list primitive `list_add(new, head)` of `linux/list.h`, used with `head` the
node of the queued request `after`: `new` is linked right after that node. -/
def list_add_after (new : request) (after : Nat) : List request → List request
  | [] => []
  | r :: l => if r.id = after then r :: new :: l else r :: list_add_after new after l

/-- The list primitive `list_del_init` of `linux/list.h` on the node `id`, seen from
one list: the node is unlinked, every other entry keeps its place. -/
def list_del (id : Nat) (l : List request) : List request :=
  l.filter (fun r => r.id != id)

/-- Assignment `rq->fifo_time = t` to the queued request with node `id`, seen
from one list. -/
def list_set_fifo_time (id : Nat) (t : Int) (l : List request) : List request :=
  l.map (fun r => if r.id = id then { r with fifo_time := t } else r)

/-- The block-layer helper `rq_fifo_clear(rq)` of `linux/elevator.h`, which is
`list_del_init(&rq->queuelist)`: the node is unlinked from the list it is in. -/
def rq_fifo_clear (td : rohie_data) (id : Nat) : rohie_data :=
  map_lists (list_del id) td

/-- The list primitive `list_move(&rq->queuelist, &next->queuelist)` of
`linux/list.h`: unlink `rq`, then `list_add` it right after the node of `next`. -/
def list_move (td : rohie_data) (rq : request) (next : Nat) : rohie_data :=
  map_lists (list_add_after rq next) (map_lists (list_del rq.id) td)

/-- Modelled from the spec: `time_after(a, b)` of `linux/jiffies.h`, which is not
part of the source file. The clock is a non-decreasing tick counter and `a` is
after `b` when `b < a`. -/
def time_after (a b : Int) : Bool := decide (b < a)

/-- Modelled from the spec: `time_before(a, b)` of `linux/jiffies.h`, which is
`time_after(b, a)`. -/
def time_before (a b : Int) : Bool := time_after b a

/-! ## Operations of the scheduler -/

/-- Embedding of `rohie_merged_requests(q, rq, next)`; the two requests are given by
their nodes. `list_empty(&rq->queuelist)` is `find_rq td rq = none`: the embedding covers
requests that are linked in one of the four lists or linked nowhere. A request that
was dispatched is linked on the dispatch queue of the block layer, which is not part
of `struct rohie_data`; a merge that involves such a request is outside the
embedding. -/
def rohie_merged_requests (td : rohie_data) (rq next : Nat) : rohie_data :=
  let td1 :=
    match find_rq td rq, find_rq td next with
    | some r, some n =>
      if time_before n.fifo_time r.fifo_time then
        map_lists (list_set_fifo_time rq n.fifo_time) (list_move td r next)
      else td
    | _, _ => td
  rq_fifo_clear td1 next

/-- Embedding of `rohie_add_request(q, rq)` at clock value `jiffies`. The sum
`jiffies + td->fifo_expire[sync][data_dir]` is computed in `unsigned long`. -/
def rohie_add_request (td : rohie_data) (rq : request) (jiffies : Int) : rohie_data :=
  let sync := rq.sync
  let data_dir := rq.data_dir
  let rq1 := { rq with fifo_time := to_ulong (jiffies + fifo_expire td sync data_dir) }
  set_fifo_list td sync data_dir (list_add rq1 (fifo_list td sync data_dir))

/-- Embedding of `rohie_expired_request(td, sync, data_dir)` at clock value `jiffies`. -/
def rohie_expired_request (td : rohie_data) (jiffies : Int) (sync data_dir : Bool) :
    Option request :=
  match fifo_list td sync data_dir with
  | [] => none
  | rq :: _ => if time_after jiffies rq.fifo_time then some rq else none

/-- Embedding of `rohie_choose_expired_request(td)` at clock value `jiffies`. -/
def rohie_choose_expired_request (td : rohie_data) (jiffies : Int) : Option request :=
  match rohie_expired_request td jiffies ASYNC WRITE with
  | some rq => some rq
  | none =>
    match rohie_expired_request td jiffies ASYNC READ with
    | some rq => some rq
    | none =>
      match rohie_expired_request td jiffies SYNC WRITE with
      | some rq => some rq
      | none =>
        match rohie_expired_request td jiffies SYNC READ with
        | some rq => some rq
        | none => none

/-- Embedding of `rohie_choose_request(td, data_dir)`. -/
def rohie_choose_request (td : rohie_data) (data_dir : Bool) : Option request :=
  match fifo_list td SYNC data_dir with
  | rq :: _ => some rq
  | [] =>
    match fifo_list td SYNC (!data_dir) with
    | rq :: _ => some rq
    | [] =>
      match fifo_list td ASYNC data_dir with
      | rq :: _ => some rq
      | [] =>
        match fifo_list td ASYNC (!data_dir) with
        | rq :: _ => some rq
        | [] => none

/-- Embedding of `rohie_dispatch_request(td, rq)`. Handing the request to the
dispatch queue of the block layer (`elv_dispatch_add_tail`) is represented by the
caller returning it. -/
def rohie_dispatch_request (td : rohie_data) (rq : request) : rohie_data :=
  let td1 := rq_fifo_clear td rq.id
  let td2 := { td1 with batched := (td1.batched + 1) % UINT_MOD }
  if rq.data_dir then
    { td2 with starved := 0 }
  else
    { td2 with starved := (td2.starved + 1) % UINT_MOD }

/-- The state after the first `if` of `rohie_dispatch_requests` and the value of
`rq` at that point. -/
def dispatch_expired_phase (td : rohie_data) (jiffies : Int) : rohie_data × Option request :=
  if td.batched > to_uint td.fifo_batch then
    let td1 := { td with batched := 0 }
    (td1, rohie_choose_expired_request td1 jiffies)
  else
    (td, none)

/-- The value of `data_dir` used by the second `if` of `rohie_dispatch_requests`. -/
def dispatch_data_dir (td : rohie_data) : Bool :=
  if td.starved > to_uint td.writes_starved then WRITE else READ

/-- Embedding of `rohie_dispatch_requests(q, force)` at clock value `jiffies`. The
result `some rq` stands for the return value 1 with `rq` moved to the dispatch
queue, `none` for the return value 0. -/
def rohie_dispatch_requests (td : rohie_data) (jiffies : Int) : rohie_data × Option request :=
  let p := dispatch_expired_phase td jiffies
  match p.2 with
  | some rq => (rohie_dispatch_request p.1 rq, some rq)
  | none =>
    match rohie_choose_request p.1 (dispatch_data_dir p.1) with
    | none => (p.1, none)
    | some rq => (rohie_dispatch_request p.1 rq, some rq)

/-- Embedding of a successful `rohie_init_queue`. `HZ` is the tick rate of the
kernel configuration. The control block comes from `kmalloc_node`, which does not
clear memory, and the function assigns neither `starved` nor `writes_starved`:
their initial contents are the arguments `starved0` and `writes_starved0`. -/
def rohie_init_queue (HZ : Int) (starved0 : Nat) (writes_starved0 : Int) : rohie_data :=
  { fifo_async_read := []
    fifo_async_write := []
    fifo_sync_read := []
    fifo_sync_write := []
    batched := 0
    starved := starved0
    expire_async_read := 2 * HZ
    expire_async_write := 2 * HZ
    expire_sync_read := 1 * HZ
    expire_sync_write := 1 * HZ
    fifo_batch := 1
    writes_starved := writes_starved0 }

/-- Run `rohie_dispatch_requests` once per clock value of the list, in order, and
collect what each call returned. -/
def dispatch_run : rohie_data → List Int → rohie_data × List (Option request)
  | td, [] => (td, [])
  | td, t :: ts =>
    let p := rohie_dispatch_requests td t
    let q := dispatch_run p.1 ts
    (q.1, p.2 :: q.2)

/-- The lists `rohie_choose_expired_request` examines before
`fifo_list[sync][data_dir]`, in scan order. -/
def scanned_before (sync data_dir : Bool) : List (Bool × Bool) :=
  match sync, data_dir with
  | false, true => []
  | false, false => [(ASYNC, WRITE)]
  | true, true => [(ASYNC, WRITE), (ASYNC, READ)]
  | true, false => [(ASYNC, WRITE), (ASYNC, READ), (SYNC, WRITE)]

/-- During a run of dispatch calls at the clock values `ts`, at no call is the head
of a list scanned before `fifo_list[sync][data_dir]` expired. -/
def not_preempted (sync data_dir : Bool) : rohie_data → List Int → Bool
  | _, [] => true
  | td, t :: ts =>
    (scanned_before sync data_dir).all
        (fun p => (rohie_expired_request td t p.1 p.2).isNone) &&
      not_preempted sync data_dir (rohie_dispatch_requests td t).1 ts

/-! ## Example states -/

/-- A fresh scheduler with `HZ = 100` whose unassigned fields happen to hold
`starved = 0` and `writes_starved = 1`. -/
def ex_fresh : rohie_data := rohie_init_queue 100 0 1

/-- One Sync-Read request added at clock 0. -/
def ex_one_read : rohie_data := rohie_add_request ex_fresh ⟨1, SYNC, READ, 0⟩ 0

/-- A second Sync-Read request added at clock 5. -/
def ex_two_reads : rohie_data := rohie_add_request ex_one_read ⟨2, SYNC, READ, 0⟩ 5

/-- Two Sync-Read requests, both added at clock 0. -/
def ex_reads_at_zero : rohie_data := rohie_add_request ex_one_read ⟨2, SYNC, READ, 0⟩ 0

/-- A fresh scheduler whose unassigned field `starved` holds the largest
`unsigned int`, with one Sync-Read request added at clock 0. -/
def ex_starved_max : rohie_data :=
  rohie_add_request (rohie_init_queue 100 4294967295 1) ⟨1, SYNC, READ, 0⟩ 0

/-- A Sync-Read and a Sync-Write request added at clock 0. -/
def ex_read_write : rohie_data := rohie_add_request ex_one_read ⟨2, SYNC, WRITE, 0⟩ 0

/-- An Async-Write request added at clock 0, then two Sync-Read requests added at
clock 250. -/
def ex_expired : rohie_data :=
  rohie_add_request (rohie_add_request (rohie_add_request ex_fresh
    ⟨1, ASYNC, WRITE, 0⟩ 0) ⟨2, SYNC, READ, 0⟩ 250) ⟨3, SYNC, READ, 0⟩ 250

/-- An Async-Write request and three Sync-Read requests, all added at clock 0. -/
def ex_reads_and_write : rohie_data :=
  rohie_add_request (rohie_add_request (rohie_add_request (rohie_add_request ex_fresh
    ⟨4, ASYNC, WRITE, 0⟩ 0) ⟨1, SYNC, READ, 0⟩ 0) ⟨2, SYNC, READ, 0⟩ 0) ⟨3, SYNC, READ, 0⟩ 0

/-- The state `ex_reads_and_write` after two dispatch calls at clock 0. -/
def ex_starving : rohie_data := (dispatch_run ex_reads_and_write [0, 0]).1

/-- A Sync-Read and a Sync-Write request queued while `starved = 2`, `batched = 1`. -/
def ex_write_due : rohie_data :=
  { rohie_add_request (rohie_add_request (rohie_init_queue 100 2 1)
      ⟨1, SYNC, READ, 0⟩ 0) ⟨2, SYNC, WRITE, 0⟩ 0 with batched := 1 }

/-- Two Sync-Read requests: request 1 added at clock 50, request 2 at clock 0. -/
def ex_merge_reads : rohie_data :=
  rohie_add_request (rohie_add_request ex_fresh ⟨1, SYNC, READ, 0⟩ 50) ⟨2, SYNC, READ, 0⟩ 0

/-- A Sync-Read request added at clock 50 and two Sync-Write requests added at
clock 0. -/
def ex_merge_cross : rohie_data :=
  rohie_add_request (rohie_add_request (rohie_add_request ex_fresh
    ⟨1, SYNC, READ, 0⟩ 50) ⟨2, SYNC, WRITE, 0⟩ 0) ⟨3, SYNC, WRITE, 0⟩ 0

/-! ## Neighbour queries and teardown -/

/-- What a `struct list_head *` stored in the `prev` or `next` field of a node
designates: the head of one of the four lists, or the node of a request. -/
inductive list_node where
  | head (sync data_dir : Bool)
  | entry (rq : request)
deriving DecidableEq, Repr

/-- The `prev` field of the node `id`, seen from one list; `p` is what precedes the
first entry of the list. The result is `none` when the node is not linked in this
list. -/
def prev_in (id : Nat) : list_node → List request → Option list_node
  | _, [] => none
  | p, x :: l => if x.id = id then some p else prev_in id (list_node.entry x) l

/-- The `next` field of the node `id`, seen from one list; `h` is the head of the
list, which follows its last entry. The result is `none` when the node is not
linked in this list. -/
def next_in (h : list_node) (id : Nat) : List request → Option list_node
  | [] => none
  | x :: l =>
    if x.id = id then some ((l.head?.map list_node.entry).getD h)
    else next_in h id l

/-- The field `rq->queuelist.prev`. A node linked in none of the four lists points
to itself, as `list_del_init` leaves it. -/
def queuelist_prev (td : rohie_data) (rq : request) : list_node :=
  match prev_in rq.id (list_node.head ASYNC WRITE) (fifo_list td ASYNC WRITE) with
  | some p => p
  | none =>
    match prev_in rq.id (list_node.head ASYNC READ) (fifo_list td ASYNC READ) with
    | some p => p
    | none =>
      match prev_in rq.id (list_node.head SYNC WRITE) (fifo_list td SYNC WRITE) with
      | some p => p
      | none =>
        match prev_in rq.id (list_node.head SYNC READ) (fifo_list td SYNC READ) with
        | some p => p
        | none => list_node.entry rq

/-- The field `rq->queuelist.next`. A node linked in none of the four lists points
to itself, as `list_del_init` leaves it. -/
def queuelist_next (td : rohie_data) (rq : request) : list_node :=
  match next_in (list_node.head ASYNC WRITE) rq.id (fifo_list td ASYNC WRITE) with
  | some p => p
  | none =>
    match next_in (list_node.head ASYNC READ) rq.id (fifo_list td ASYNC READ) with
    | some p => p
    | none =>
      match next_in (list_node.head SYNC WRITE) rq.id (fifo_list td SYNC WRITE) with
      | some p => p
      | none =>
        match next_in (list_node.head SYNC READ) rq.id (fifo_list td SYNC READ) with
        | some p => p
        | none => list_node.entry rq

/-- Embedding of `rohie_former_request(q, rq)`. The result `none` is `NULL`;
`some (entry x)` is the request `x`; `some (head s d)` is `list_entry` applied to the
head of `fifo_list[s][d]`, a pointer that designates no request. -/
def rohie_former_request (td : rohie_data) (rq : request) : Option list_node :=
  if queuelist_prev td rq = list_node.head rq.sync rq.data_dir then none
  else some (queuelist_prev td rq)

/-- Embedding of `rohie_latter_request(q, rq)`, with the results read as for
`rohie_former_request`. -/
def rohie_latter_request (td : rohie_data) (rq : request) : Option list_node :=
  if queuelist_next td rq = list_node.head rq.sync rq.data_dir then none
  else some (queuelist_next td rq)

/-- Modelled from the spec: `BUG_ON(condition)` of `asm-generic/bug.h`, which is not
part of the source file. A true condition is a fatal invariant violation (`none`),
otherwise execution goes on. -/
def BUG_ON (condition : Bool) : Option Unit :=
  if condition then none else some ()

/-- Embedding of `rohie_exit_queue(e)`: `some ()` when the control block is freed,
`none` when a `BUG_ON` fires. -/
def rohie_exit_queue (td : rohie_data) : Option Unit := do
  BUG_ON (!(fifo_list td SYNC READ).isEmpty)
  BUG_ON (!(fifo_list td SYNC WRITE).isEmpty)
  BUG_ON (!(fifo_list td ASYNC READ).isEmpty)
  BUG_ON (!(fifo_list td ASYNC WRITE).isEmpty)
  pure ()

/-! ## Runs of operations -/

/-- A call of the host into the scheduler that changes its state. -/
inductive sched_op where
  | enqueue (rq : request) (jiffies : Int)
  | dispatch (jiffies : Int)
  | merge (rq next : Nat)
deriving DecidableEq, Repr

/-- The state after one call. -/
def apply_op (td : rohie_data) : sched_op → rohie_data
  | sched_op.enqueue rq jiffies => rohie_add_request td rq jiffies
  | sched_op.dispatch jiffies => (rohie_dispatch_requests td jiffies).1
  | sched_op.merge rq next => rohie_merged_requests td rq next

/-- The precondition of a call: a request that is added is not queued, two requests
that are merged are distinct and both queued. -/
def op_allowed (td : rohie_data) : sched_op → Bool
  | sched_op.enqueue rq _ => (find_rq td rq.id).isNone
  | sched_op.dispatch _ => true
  | sched_op.merge rq next =>
    (find_rq td rq).isSome && (find_rq td next).isSome && decide (rq ≠ next)

/-- Every call of the sequence meets its precondition in the state it is made in. -/
def ops_allowed : rohie_data → List sched_op → Bool
  | _, [] => true
  | td, op :: ops => op_allowed td op && ops_allowed (apply_op td op) ops

/-- The state after a sequence of calls. -/
def run_ops (td : rohie_data) (ops : List sched_op) : rohie_data :=
  ops.foldl apply_op td

/-- Bookkeeping of the host: `live` holds the requests added and not handed back
since, `gone` the requests whose last event is a dispatch or an absorption by a
merge. -/
structure ledger where
  live : List Nat
  gone : List Nat
deriving DecidableEq, Repr

/-- The bookkeeping after one call made in the state `td`. -/
def book_op (td : rohie_data) (lg : ledger) : sched_op → ledger
  | sched_op.enqueue rq _ =>
    { live := rq.id :: lg.live, gone := lg.gone.filter (fun i => i != rq.id) }
  | sched_op.dispatch jiffies =>
    match (rohie_dispatch_requests td jiffies).2 with
    | some rq => { live := lg.live.filter (fun i => i != rq.id), gone := rq.id :: lg.gone }
    | none => lg
  | sched_op.merge _ next =>
    { live := lg.live.filter (fun i => i != next), gone := next :: lg.gone }

/-- The bookkeeping after a sequence of calls that starts in the state `td`. -/
def run_book : rohie_data → ledger → List sched_op → ledger
  | _, lg, [] => lg
  | td, lg, op :: ops => run_book (apply_op td op) (book_op td lg op) ops

/-- The identities of the queued requests, list by list. -/
def queued_ids (td : rohie_data) : List Nat :=
  (all_rqs td).map request.id

/-- For each call of a run of dispatch calls, whether the call is entered with
`batched > fifo_batch`, that is whether it performs the expired scan. -/
def check_run : rohie_data → List Int → List Bool
  | _, [] => []
  | td, t :: ts =>
    decide (td.batched > to_uint td.fifo_batch) ::
      check_run (rohie_dispatch_requests td t).1 ts

/-- Every queued request is in the list indexed by its own flags. -/
def tags_consistent (td : rohie_data) : Prop :=
  ∀ s d, ∀ x ∈ fifo_list td s d, x.sync = s ∧ x.data_dir = d

instance (td : rohie_data) : Decidable (tags_consistent td) := by
  unfold tags_consistent; infer_instance

/-! ## Further example states -/

/-- A scheduler constructed on memory in which the bytes of `starved` hold 7 and
those of `writes_starved` hold -3. -/
def ex_garbage : rohie_data := rohie_init_queue 100 7 (-3)

/-- An Async-Write request added at clock 0 (deadline 200) and a Sync-Write request
added at clock 150 (deadline 250). -/
def ex_writes : rohie_data :=
  rohie_add_request (rohie_add_request ex_fresh ⟨2, ASYNC, WRITE, 0⟩ 0) ⟨1, SYNC, WRITE, 0⟩ 150

/-- A sequence of calls: three requests are added, one is dispatched, two are
merged. -/
def ex_ops : List sched_op :=
  [sched_op.enqueue ⟨1, SYNC, READ, 0⟩ 0, sched_op.enqueue ⟨2, ASYNC, WRITE, 0⟩ 0,
    sched_op.enqueue ⟨3, SYNC, WRITE, 0⟩ 50, sched_op.dispatch 10, sched_op.merge 3 2]

/-! ## Basic facts about the indexed views -/

@[simp] theorem fifo_list_map_lists (f : List request → List request) (td : rohie_data)
    (s d : Bool) : fifo_list (map_lists f td) s d = f (fifo_list td s d) := by
  cases s <;> cases d <;> rfl

theorem fifo_list_set_fifo_list (td : rohie_data) (s d s1 d1 : Bool) (l : List request) :
    fifo_list (set_fifo_list td s d l) s1 d1 =
      if s1 = s ∧ d1 = d then l else fifo_list td s1 d1 := by
  cases s <;> cases d <;> cases s1 <;> cases d1 <;> simp [fifo_list, set_fifo_list]

theorem fifo_list_add_request (td : rohie_data) (rq : request) (jiffies : Int) (s d : Bool) :
    fifo_list (rohie_add_request td rq jiffies) s d =
      if s = rq.sync ∧ d = rq.data_dir then
        { rq with fifo_time := to_ulong (jiffies + fifo_expire td rq.sync rq.data_dir) } ::
          fifo_list td rq.sync rq.data_dir
      else fifo_list td s d := by
  simp [rohie_add_request, fifo_list_set_fifo_list, list_add]

/-! ## Enqueue places the request at the head (C1, C2) -/

/-- C1, evaluated on the code: a second request added to the Sync-Read list of a
fresh scheduler is linked in front of the request already there, so the list is
not its previous contents followed by the new request. -/
theorem rohie_add_request_head_example :
    fifo_list ex_one_read SYNC READ = [⟨1, SYNC, READ, 100⟩] ∧
    fifo_list (rohie_add_request ex_one_read ⟨2, SYNC, READ, 0⟩ 5) SYNC READ =
      [⟨2, SYNC, READ, 105⟩, ⟨1, SYNC, READ, 100⟩] ∧
    fifo_list (rohie_add_request ex_one_read ⟨2, SYNC, READ, 0⟩ 5) SYNC READ ≠
      fifo_list ex_one_read SYNC READ ++ [⟨2, SYNC, READ, 105⟩] := by
  decide

/-- C2, evaluated on the code: two requests added to the Sync-Read list of a fresh
scheduler, with no head expired and the other three lists empty, are dispatched
in the reverse of the order in which they were added. -/
theorem dispatch_lifo_example :
    ex_reads_at_zero =
      rohie_add_request (rohie_add_request ex_fresh ⟨1, SYNC, READ, 0⟩ 0) ⟨2, SYNC, READ, 0⟩ 0 ∧
    rohie_choose_expired_request ex_reads_at_zero 0 = none ∧
    fifo_list ex_reads_at_zero SYNC WRITE = [] ∧ fifo_list ex_reads_at_zero ASYNC READ = [] ∧
    fifo_list ex_reads_at_zero ASYNC WRITE = [] ∧
    (dispatch_run ex_reads_at_zero [0, 0]).2 =
      [some ⟨2, SYNC, READ, 100⟩, some ⟨1, SYNC, READ, 100⟩] := by
  decide

/-! ## Selection on the normal path (C3) -/

/-- C3: `rohie_choose_request` returns the head of Sync[data_dir] if that list is
non-empty, else the head of Sync[opposite], else the head of Async[data_dir], else
the head of Async[opposite], else nothing; unless both synchronous lists are empty
the request returned is the head of a synchronous list. The function is a pure
query: it yields no new state. -/
theorem rohie_choose_request_order (td : rohie_data) (data_dir : Bool) :
    rohie_choose_request td data_dir =
      ((fifo_list td SYNC data_dir).head? <|> (fifo_list td SYNC (!data_dir)).head? <|>
        (fifo_list td ASYNC data_dir).head? <|> (fifo_list td ASYNC (!data_dir)).head?) ∧
    ((fifo_list td SYNC READ = [] ∧ fifo_list td SYNC WRITE = []) ∨
      ∃ rq d, rohie_choose_request td data_dir = some rq ∧
        (fifo_list td SYNC d).head? = some rq) := by
  constructor
  · unfold rohie_choose_request
    cases h1 : fifo_list td SYNC data_dir <;> cases h2 : fifo_list td SYNC (!data_dir) <;>
      cases h3 : fifo_list td ASYNC data_dir <;> cases h4 : fifo_list td ASYNC (!data_dir) <;>
      simp
  · unfold rohie_choose_request
    cases data_dir <;>
    cases h1 : fifo_list td SYNC false <;> cases h2 : fifo_list td SYNC true <;>
      simp [h1, h2]

/-! ## A node is linked in one place -/

theorem nodes_distinct_list (td : rohie_data) (h : nodes_distinct td) (s d : Bool) :
    ((fifo_list td s d).map request.id).Nodup := by
  unfold nodes_distinct all_rqs at h
  simp only [List.map_append, List.nodup_append] at h
  cases s <;> cases d <;> simp only [fifo_list] at h ⊢ <;> tauto

theorem nodes_distinct_disjoint (td : rohie_data) (h : nodes_distinct td) (s d s1 d1 : Bool)
    (hne : ¬ (s1 = s ∧ d1 = d)) (x y : request) (hx : x ∈ fifo_list td s d)
    (hy : y ∈ fifo_list td s1 d1) : x.id ≠ y.id := by
  unfold nodes_distinct all_rqs at h
  simp only [List.map_append, List.nodup_append, List.disjoint_left, List.mem_append,
    List.mem_map] at h
  obtain ⟨⟨⟨-, -, h1⟩, -, h2⟩, -, h3⟩ := h
  intro he
  cases s <;> cases d <;> cases s1 <;> cases d1 <;> simp only [fifo_list] at hx hy h1 h2 h3 <;>
    simp at hne
  all_goals first
    | exact h1 ⟨x, hx, rfl⟩ ⟨y, hy, he.symm⟩
    | exact h2 (Or.inl ⟨x, hx, rfl⟩) ⟨y, hy, he.symm⟩
    | exact h2 (Or.inr ⟨x, hx, rfl⟩) ⟨y, hy, he.symm⟩
    | exact h3 (Or.inl (Or.inl ⟨x, hx, rfl⟩)) ⟨y, hy, he.symm⟩
    | exact h3 (Or.inl (Or.inr ⟨x, hx, rfl⟩)) ⟨y, hy, he.symm⟩
    | exact h3 (Or.inr ⟨x, hx, rfl⟩) ⟨y, hy, he.symm⟩
    | exact h1 ⟨y, hy, he.symm⟩ ⟨x, hx, rfl⟩
    | exact h2 (Or.inl ⟨y, hy, he.symm⟩) ⟨x, hx, rfl⟩
    | exact h2 (Or.inr ⟨y, hy, he.symm⟩) ⟨x, hx, rfl⟩
    | exact h3 (Or.inl (Or.inl ⟨y, hy, he.symm⟩)) ⟨x, hx, rfl⟩
    | exact h3 (Or.inl (Or.inr ⟨y, hy, he.symm⟩)) ⟨x, hx, rfl⟩
    | exact h3 (Or.inr ⟨y, hy, he.symm⟩) ⟨x, hx, rfl⟩

/-! ## Expired requests (C4) -/

theorem rohie_expired_request_eq (td : rohie_data) (now : Int) (s d : Bool) :
    rohie_expired_request td now s d =
      (fifo_list td s d).head?.filter (fun rq => decide (rq.fifo_time < now)) := by
  unfold rohie_expired_request time_after
  cases h : fifo_list td s d with
  | nil => simp
  | cons rq l =>
    by_cases h1 : rq.fifo_time < now <;> simp [h1, Option.filter]

theorem rohie_expired_request_eq_none (td : rohie_data) (now : Int) (s d : Bool) :
    rohie_expired_request td now s d = none ↔
      ∀ rq, (fifo_list td s d).head? = some rq → ¬ rq.fifo_time < now := by
  unfold rohie_expired_request time_after
  cases h : fifo_list td s d with
  | nil => simp
  | cons rq l =>
    by_cases h1 : rq.fifo_time < now
    · simp [h1]
    · simp [h1, not_lt.1 h1]

theorem rohie_expired_request_eq_some (td : rohie_data) (now : Int) (s d : Bool) (rq : request) :
    rohie_expired_request td now s d = some rq ↔
      (fifo_list td s d).head? = some rq ∧ rq.fifo_time < now := by
  unfold rohie_expired_request time_after
  cases h : fifo_list td s d with
  | nil => simp
  | cons r l =>
    by_cases h1 : r.fifo_time < now
    · simp only [h1, decide_True, if_true, List.head?_cons, Option.some.injEq]
      constructor
      · intro h2; subst h2; exact ⟨rfl, h1⟩
      · intro h2; exact h2.1
    · simp only [h1, decide_False, List.head?_cons, Option.some.injEq]
      constructor
      · intro h2; simp at h2
      · intro h2; exact absurd (h2.1 ▸ h2.2) h1

/-- The expired scan finds nothing exactly when no list head is expired. -/
theorem rohie_choose_expired_request_eq_none (td : rohie_data) (now : Int) :
    rohie_choose_expired_request td now = none ↔
      ∀ s d rq, (fifo_list td s d).head? = some rq → ¬ rq.fifo_time < now := by
  constructor
  · intro h s d
    rw [← rohie_expired_request_eq_none]
    unfold rohie_choose_expired_request at h
    cases h1 : rohie_expired_request td now ASYNC WRITE <;>
    cases h2 : rohie_expired_request td now ASYNC READ <;>
    cases h3 : rohie_expired_request td now SYNC WRITE <;>
    cases h4 : rohie_expired_request td now SYNC READ <;> simp [h1, h2, h3, h4] at h
    cases s <;> cases d <;> assumption
  · intro h
    have h1 := (rohie_expired_request_eq_none td now ASYNC WRITE).2 (h _ _)
    have h2 := (rohie_expired_request_eq_none td now ASYNC READ).2 (h _ _)
    have h3 := (rohie_expired_request_eq_none td now SYNC WRITE).2 (h _ _)
    have h4 := (rohie_expired_request_eq_none td now SYNC READ).2 (h _ _)
    simp [rohie_choose_expired_request, h1, h2, h3, h4]

/-! ## Auxiliary facts about removal and selection -/

/-- For a non-negative `int` the conversion to `unsigned int` keeps the value, so the
comparison of the code with an `unsigned int` counter is the comparison of integers. -/
theorem to_uint_of_nonneg (x : Int) (h0 : 0 ≤ x) (h1 : x < 2 ^ 32) : to_uint x = x.toNat := by
  unfold to_uint UINT_MOD
  rw [Int.emod_eq_of_lt h0 (by simpa using h1)]

/-- For `0 ≤ fifo_batch` the test `td->batched > td->fifo_batch` of the code is the
comparison of the two values as integers. -/
theorem batched_gt_fifo_batch_iff (td : rohie_data) (h0 : 0 ≤ td.fifo_batch)
    (h1 : td.fifo_batch < 2 ^ 31) :
    td.batched > to_uint td.fifo_batch ↔ (td.batched : Int) > td.fifo_batch := by
  rw [to_uint_of_nonneg td.fifo_batch h0 (by omega)]
  omega

/-- For a non-negative `int` tunable the comparison of the code with an `unsigned int`
counter is the comparison of the two values as integers. -/
theorem gt_to_uint_iff (n : Nat) (x : Int) (h0 : 0 ≤ x) (h1 : x < 2 ^ 31) :
    n > to_uint x ↔ (n : Int) > x := by
  rw [to_uint_of_nonneg x h0 (by omega)]
  omega

theorem list_del_of_not_mem (id : Nat) (l : List request) (h : ∀ x ∈ l, x.id ≠ id) :
    list_del id l = l := by
  unfold list_del
  rw [List.filter_eq_self]
  intro x hx
  simpa using h x hx

theorem list_del_head_queue (td : rohie_data) (h : nodes_distinct td) (s d : Bool)
    (rq : request) (rest : List request) (hq : fifo_list td s d = rq :: rest) (s1 d1 : Bool) :
    list_del rq.id (fifo_list td s1 d1) =
      if s1 = s ∧ d1 = d then rest else fifo_list td s1 d1 := by
  by_cases hc : s1 = s ∧ d1 = d
  · obtain ⟨rfl, rfl⟩ := hc
    have hn := nodes_distinct_list td h s1 d1
    rw [hq] at hn ⊢
    simp only [List.map_cons, List.nodup_cons, List.mem_map, not_exists, not_and] at hn
    simp only [and_self, if_true]
    have : list_del rq.id rest = rest := list_del_of_not_mem _ _ (fun x hx => hn.1 x hx)
    simp [list_del] at this ⊢
    exact this
  · rw [if_neg hc]
    apply list_del_of_not_mem
    intro x hx he
    exact nodes_distinct_disjoint td h s d s1 d1 hc rq x (by rw [hq]; simp) hx he.symm

theorem rohie_choose_request_some (td : rohie_data) (data_dir : Bool) (rq : request)
    (h : rohie_choose_request td data_dir = some rq) :
    ∃ s d rest, fifo_list td s d = rq :: rest := by
  unfold rohie_choose_request at h
  cases h1 : fifo_list td SYNC data_dir with
  | cons a l => simp [h1] at h; subst h; exact ⟨_, _, _, h1⟩
  | nil =>
    cases h2 : fifo_list td SYNC (!data_dir) with
    | cons a l => simp [h1, h2] at h; subst h; exact ⟨_, _, _, h2⟩
    | nil =>
      cases h3 : fifo_list td ASYNC data_dir with
      | cons a l => simp [h1, h2, h3] at h; subst h; exact ⟨_, _, _, h3⟩
      | nil =>
        cases h4 : fifo_list td ASYNC (!data_dir) with
        | cons a l => simp [h1, h2, h3, h4] at h; subst h; exact ⟨_, _, _, h4⟩
        | nil => simp [h1, h2, h3, h4] at h

theorem rohie_expired_request_some_head (td : rohie_data) (now : Int) (s d : Bool) (rq : request)
    (h : rohie_expired_request td now s d = some rq) :
    ∃ rest, fifo_list td s d = rq :: rest := by
  unfold rohie_expired_request at h
  cases h1 : fifo_list td s d with
  | nil => simp [h1] at h
  | cons a l =>
    simp only [h1] at h
    split at h
    · simp at h; subst h; exact ⟨_, rfl⟩
    · simp at h

theorem rohie_choose_expired_request_some (td : rohie_data) (now : Int) (rq : request)
    (h : rohie_choose_expired_request td now = some rq) :
    ∃ s d rest, fifo_list td s d = rq :: rest := by
  unfold rohie_choose_expired_request at h
  cases h1 : rohie_expired_request td now ASYNC WRITE with
  | some a => simp [h1] at h; subst h; exact ⟨_, _, rohie_expired_request_some_head _ _ _ _ _ h1⟩
  | none =>
    cases h2 : rohie_expired_request td now ASYNC READ with
    | some a => simp [h1, h2] at h; subst h; exact ⟨_, _, rohie_expired_request_some_head _ _ _ _ _ h2⟩
    | none =>
      cases h3 : rohie_expired_request td now SYNC WRITE with
      | some a =>
        simp [h1, h2, h3] at h; subst h; exact ⟨_, _, rohie_expired_request_some_head _ _ _ _ _ h3⟩
      | none =>
        cases h4 : rohie_expired_request td now SYNC READ with
        | some a =>
          simp [h1, h2, h3, h4] at h; subst h
          exact ⟨_, _, rohie_expired_request_some_head _ _ _ _ _ h4⟩
        | none => simp [h1, h2, h3, h4] at h

/-- The lists are not touched by the first phase of a dispatch. -/
theorem fifo_list_expired_phase (td : rohie_data) (now : Int) (s d : Bool) :
    fifo_list (dispatch_expired_phase td now).1 s d = fifo_list td s d := by
  unfold dispatch_expired_phase
  split <;> cases s <;> cases d <;> rfl

theorem rohie_expired_request_congr (td td1 : rohie_data) (now : Int) (s d : Bool)
    (h : fifo_list td1 s d = fifo_list td s d) :
    rohie_expired_request td1 now s d = rohie_expired_request td now s d := by
  unfold rohie_expired_request; rw [h]

theorem rohie_choose_expired_request_congr (td td1 : rohie_data) (now : Int)
    (h : ∀ s d, fifo_list td1 s d = fifo_list td s d) :
    rohie_choose_expired_request td1 now = rohie_choose_expired_request td now := by
  unfold rohie_choose_expired_request
  simp only [rohie_expired_request_congr td td1 now _ _ (h _ _)]

theorem rohie_choose_request_congr (td td1 : rohie_data) (data_dir : Bool)
    (h : ∀ s d, fifo_list td1 s d = fifo_list td s d) :
    rohie_choose_request td1 data_dir = rohie_choose_request td data_dir := by
  unfold rohie_choose_request
  simp only [h]

/-- The request returned by a dispatch is the head of one of the four lists. -/
theorem rohie_dispatch_requests_some (td : rohie_data) (now : Int) (rq : request)
    (h : (rohie_dispatch_requests td now).2 = some rq) :
    (rohie_dispatch_requests td now).1 =
        rohie_dispatch_request (dispatch_expired_phase td now).1 rq ∧
      ∃ s d rest, fifo_list td s d = rq :: rest := by
  unfold rohie_dispatch_requests at h ⊢
  cases h1 : (dispatch_expired_phase td now).2 with
  | some a =>
    simp only [h1] at h ⊢
    simp at h; subst h
    refine ⟨rfl, ?_⟩
    unfold dispatch_expired_phase at h1
    split at h1
    · simp only at h1
      obtain ⟨s, d, rest, hh⟩ := rohie_choose_expired_request_some _ _ _ h1
      exact ⟨s, d, rest, by rw [← hh]; cases s <;> cases d <;> rfl⟩
    · simp at h1
  | none =>
    simp only [h1] at h ⊢
    cases h2 : rohie_choose_request (dispatch_expired_phase td now).1
        (dispatch_data_dir (dispatch_expired_phase td now).1) with
    | none => simp [h2] at h
    | some a =>
      simp only [h2] at h ⊢
      simp at h; subst h
      refine ⟨rfl, ?_⟩
      obtain ⟨s, d, rest, hh⟩ := rohie_choose_request_some _ _ _ h2
      exact ⟨s, d, rest, by rw [← hh, fifo_list_expired_phase]⟩

/-- C4: `rohie_choose_expired_request` looks at the head of each list only, in the
order Async-Write, Async-Read, Sync-Write, Sync-Read, and returns the first head whose
deadline lies strictly before the clock value; it returns nothing exactly when no head
is expired; what it returns is the head of a list; a head whose deadline equals the
clock value is not expired; and, nodes being linked once, a request behind the head of
its list is never returned. -/
theorem rohie_choose_expired_request_scan (td : rohie_data) (now : Int) :
    rohie_choose_expired_request td now =
      ((fifo_list td ASYNC WRITE).head?.filter (fun rq => decide (rq.fifo_time < now)) <|>
        (fifo_list td ASYNC READ).head?.filter (fun rq => decide (rq.fifo_time < now)) <|>
        (fifo_list td SYNC WRITE).head?.filter (fun rq => decide (rq.fifo_time < now)) <|>
        (fifo_list td SYNC READ).head?.filter (fun rq => decide (rq.fifo_time < now))) ∧
    (rohie_choose_expired_request td now = none ↔
      ∀ s d rq, (fifo_list td s d).head? = some rq → ¬ rq.fifo_time < now) ∧
    (∀ rq, rohie_choose_expired_request td now = some rq →
      ∃ s d, (fifo_list td s d).head? = some rq ∧ rq.fifo_time < now) ∧
    (∀ s d rq l, fifo_list td s d = rq :: l → rq.fifo_time = now →
      rohie_expired_request td now s d = none) ∧
    (nodes_distinct td → ∀ s d h l rq, fifo_list td s d = h :: l → rq ∈ l →
      rohie_choose_expired_request td now ≠ some rq) := by
  refine ⟨?_, ?_, ?_, ?_, ?_⟩
  · simp only [← rohie_expired_request_eq]
    unfold rohie_choose_expired_request
    cases rohie_expired_request td now ASYNC WRITE <;>
      cases rohie_expired_request td now ASYNC READ <;>
      cases rohie_expired_request td now SYNC WRITE <;>
      cases rohie_expired_request td now SYNC READ <;> simp
  · exact rohie_choose_expired_request_eq_none td now
  · intro rq h
    unfold rohie_choose_expired_request at h
    cases h1 : rohie_expired_request td now ASYNC WRITE <;>
      cases h2 : rohie_expired_request td now ASYNC READ <;>
      cases h3 : rohie_expired_request td now SYNC WRITE <;>
      cases h4 : rohie_expired_request td now SYNC READ <;> simp [h1, h2, h3, h4] at h <;>
      subst h
    all_goals first
      | exact ⟨_, _, (rohie_expired_request_eq_some _ _ _ _ _).1 h1⟩
      | exact ⟨_, _, (rohie_expired_request_eq_some _ _ _ _ _).1 h2⟩
      | exact ⟨_, _, (rohie_expired_request_eq_some _ _ _ _ _).1 h3⟩
      | exact ⟨_, _, (rohie_expired_request_eq_some _ _ _ _ _).1 h4⟩
  · intro s d rq l h1 h2
    rw [rohie_expired_request_eq_none]
    intro r hr
    rw [h1] at hr
    simp at hr
    subst hr
    omega
  · intro hd s d h l rq hq hmem hres
    obtain ⟨s1, d1, rest, hq1⟩ := rohie_choose_expired_request_some td now rq hres
    by_cases hc : s1 = s ∧ d1 = d
    · obtain ⟨rfl, rfl⟩ := hc
      rw [hq] at hq1
      simp only [List.cons.injEq] at hq1
      have hn := nodes_distinct_list td hd s1 d1
      rw [hq, List.map_cons, List.nodup_cons] at hn
      apply hn.1
      rw [hq1.1]
      exact List.mem_map_of_mem request.id hmem
    · exact nodes_distinct_disjoint td hd s d s1 d1 hc rq rq (by rw [hq]; simp [hmem])
        (by rw [hq1]; simp) rfl

/-! ## Effect of a dispatch (C5) -/

theorem batched_expired_phase (td : rohie_data) (now : Int) :
    (dispatch_expired_phase td now).1.batched =
      if td.batched > to_uint td.fifo_batch then 0 else td.batched := by
  unfold dispatch_expired_phase
  split <;> rfl

theorem fields_expired_phase (td : rohie_data) (now : Int) :
    (dispatch_expired_phase td now).1.starved = td.starved ∧
    (dispatch_expired_phase td now).1.fifo_batch = td.fifo_batch ∧
    (dispatch_expired_phase td now).1.writes_starved = td.writes_starved ∧
    ∀ s d, fifo_expire (dispatch_expired_phase td now).1 s d = fifo_expire td s d := by
  unfold dispatch_expired_phase
  split
  · refine ⟨rfl, rfl, rfl, ?_⟩
    intro s d; cases s <;> cases d <;> rfl
  · exact ⟨rfl, rfl, rfl, fun _ _ => rfl⟩

theorem fields_dispatch_request (td : rohie_data) (rq : request) :
    (rohie_dispatch_request td rq).batched = (td.batched + 1) % UINT_MOD ∧
    (rohie_dispatch_request td rq).starved =
      (if rq.data_dir = WRITE then 0 else (td.starved + 1) % UINT_MOD) ∧
    (rohie_dispatch_request td rq).fifo_batch = td.fifo_batch ∧
    (rohie_dispatch_request td rq).writes_starved = td.writes_starved ∧
    (∀ s d, fifo_expire (rohie_dispatch_request td rq) s d = fifo_expire td s d) ∧
    ∀ s d, fifo_list (rohie_dispatch_request td rq) s d = list_del rq.id (fifo_list td s d) := by
  unfold rohie_dispatch_request rq_fifo_clear
  cases h : rq.data_dir
  · refine ⟨rfl, rfl, rfl, rfl, ?_, ?_⟩ <;> intro s d <;> cases s <;> cases d <;> rfl
  · refine ⟨rfl, rfl, rfl, rfl, ?_, ?_⟩ <;> intro s d <;> cases s <;> cases d <;> rfl

/-- C5 fails as stated: with `starved` at the largest `unsigned int` value (the field
is not assigned by `rohie_init_queue`), dispatching a Read leaves `starved` at 0 and
not at the old value plus one. -/
theorem dispatch_starved_wrap_example :
    (rohie_dispatch_requests ex_starved_max 0).2 = some ⟨1, SYNC, READ, 100⟩ ∧
    ex_starved_max.starved = 4294967295 ∧
    (rohie_dispatch_requests ex_starved_max 0).1.starved = 0 ∧
    (rohie_dispatch_requests ex_starved_max 0).1.starved ≠ ex_starved_max.starved + 1 := by
  decide

/-- C5, amended: when a dispatch returns a request, that request was the head of one
list, that list loses exactly its head and the other three lists are unchanged (so
every remaining request keeps its list, its place and its deadline); `batched` ends
at its value after the first phase (0 after a reset, the old value otherwise) plus one
modulo `2 ^ 32`; `starved` ends at 0 for a Write and at the old value plus one modulo
`2 ^ 32` for a Read; the sums are exact when `0 ≤ fifo_batch` resp. when `starved + 1`
fits an `unsigned int`; the tunables are unchanged. -/
theorem rohie_dispatch_requests_effect (td : rohie_data) (now : Int) (rq : request)
    (hd : nodes_distinct td) (hr : (rohie_dispatch_requests td now).2 = some rq) :
    (∃ s d rest, fifo_list td s d = rq :: rest ∧
      ∀ s1 d1, fifo_list (rohie_dispatch_requests td now).1 s1 d1 =
        if s1 = s ∧ d1 = d then rest else fifo_list td s1 d1) ∧
    (rohie_dispatch_requests td now).1.batched =
      ((if td.batched > to_uint td.fifo_batch then 0 else td.batched) + 1) % UINT_MOD ∧
    (rohie_dispatch_requests td now).1.starved =
      (if rq.data_dir = WRITE then 0 else (td.starved + 1) % UINT_MOD) ∧
    (0 ≤ td.fifo_batch → td.fifo_batch < 2 ^ 31 →
      (rohie_dispatch_requests td now).1.batched =
        (if td.batched > to_uint td.fifo_batch then 0 else td.batched) + 1) ∧
    (td.starved + 1 < UINT_MOD → rq.data_dir = READ →
      (rohie_dispatch_requests td now).1.starved = td.starved + 1) ∧
    (rohie_dispatch_requests td now).1.fifo_batch = td.fifo_batch ∧
    (rohie_dispatch_requests td now).1.writes_starved = td.writes_starved ∧
    ∀ s d, fifo_expire (rohie_dispatch_requests td now).1 s d = fifo_expire td s d := by
  obtain ⟨he, s, d, rest, hq⟩ := rohie_dispatch_requests_some td now rq hr
  obtain ⟨hb, hs, hfb, hws, hex, hl⟩ := fields_dispatch_request (dispatch_expired_phase td now).1 rq
  obtain ⟨ps, pfb, pws, pex⟩ := fields_expired_phase td now
  rw [he]
  have hbat : (rohie_dispatch_request (dispatch_expired_phase td now).1 rq).batched =
      ((if td.batched > to_uint td.fifo_batch then 0 else td.batched) + 1) % UINT_MOD := by
    rw [hb, batched_expired_phase]
  have hsta : (rohie_dispatch_request (dispatch_expired_phase td now).1 rq).starved =
      (if rq.data_dir = WRITE then 0 else (td.starved + 1) % UINT_MOD) := by
    rw [hs, ps]
  refine ⟨⟨s, d, rest, hq, ?_⟩, hbat, hsta, ?_, ?_, ?_, ?_, ?_⟩
  · intro s1 d1
    rw [hl, fifo_list_expired_phase]
    exact list_del_head_queue td hd s d rq rest hq s1 d1
  · intro h0 h1
    rw [hbat]
    apply Nat.mod_eq_of_lt
    have hu := to_uint_of_nonneg td.fifo_batch h0 (by omega)
    unfold UINT_MOD
    split
    · omega
    · omega
  · intro h1 h2
    rw [hsta, Nat.mod_eq_of_lt h1]
    simp [h2]
  · rw [hfb, pfb]
  · rw [hws, pws]
  · intro s1 d1; rw [hex, pex]

/-- The C5 effect statement at a concrete state: a Sync-Read and a Sync-Write queued
on a fresh scheduler, one dispatch. -/
theorem rohie_dispatch_requests_effect_witness :
    nodes_distinct ex_read_write ∧
    (rohie_dispatch_requests ex_read_write 7).2 = some ⟨1, SYNC, READ, 100⟩ ∧
    (rohie_dispatch_requests ex_read_write 7).1.batched =
      ((if ex_read_write.batched > to_uint ex_read_write.fifo_batch then 0
        else ex_read_write.batched) + 1) % UINT_MOD ∧
    (rohie_dispatch_requests ex_read_write 7).1.starved = 1 :=
  ⟨by decide, by decide,
    (rohie_dispatch_requests_effect ex_read_write 7 ⟨1, SYNC, READ, 100⟩
      (by decide) (by decide)).2.1,
    by decide⟩

/-! ## Two-phase dispatch (C6) -/

theorem dispatch_data_dir_expired_phase (td : rohie_data) (now : Int) :
    dispatch_data_dir (dispatch_expired_phase td now).1 = dispatch_data_dir td := by
  unfold dispatch_data_dir
  obtain ⟨h1, -, h2, -⟩ := fields_expired_phase td now
  rw [h1, h2]

/-- What a dispatch does when its first phase yields no request. -/
theorem rohie_dispatch_requests_normal (td : rohie_data) (now : Int)
    (h : (dispatch_expired_phase td now).2 = none) :
    (rohie_dispatch_requests td now).2 = rohie_choose_request td (dispatch_data_dir td) ∧
    (rohie_dispatch_requests td now).1 =
      match rohie_choose_request td (dispatch_data_dir td) with
      | none => (dispatch_expired_phase td now).1
      | some rq => rohie_dispatch_request (dispatch_expired_phase td now).1 rq := by
  have hc : rohie_choose_request (dispatch_expired_phase td now).1
      (dispatch_data_dir (dispatch_expired_phase td now).1) =
      rohie_choose_request td (dispatch_data_dir td) := by
    rw [dispatch_data_dir_expired_phase]
    exact rohie_choose_request_congr _ _ _ (fifo_list_expired_phase td now)
  unfold rohie_dispatch_requests
  simp only [h, hc]
  cases rohie_choose_request td (dispatch_data_dir td) <;> simp

/-- What a dispatch does when its first phase yields a request. -/
theorem rohie_dispatch_requests_expired (td : rohie_data) (now : Int) (rq : request)
    (h : (dispatch_expired_phase td now).2 = some rq) :
    (rohie_dispatch_requests td now).2 = some rq ∧
    (rohie_dispatch_requests td now).1 =
      rohie_dispatch_request (dispatch_expired_phase td now).1 rq := by
  unfold rohie_dispatch_requests
  simp [h]

theorem dispatch_expired_phase_of_gt (td : rohie_data) (now : Int)
    (h : td.batched > to_uint td.fifo_batch) :
    (dispatch_expired_phase td now).2 = rohie_choose_expired_request td now ∧
    (dispatch_expired_phase td now).1.batched = 0 := by
  unfold dispatch_expired_phase
  rw [if_pos h]
  refine ⟨?_, rfl⟩
  apply rohie_choose_expired_request_congr
  intro s d; cases s <;> cases d <;> rfl

theorem dispatch_expired_phase_of_le (td : rohie_data) (now : Int)
    (h : ¬ td.batched > to_uint td.fifo_batch) :
    dispatch_expired_phase td now = (td, none) := by
  unfold dispatch_expired_phase
  rw [if_neg h]

/-- C8 fails as stated: after two Read dispatches on the normal path `starved = 2`
exceeds `writes_starved = 1` and an Async-Write request is queued, yet the next
dispatch, which takes the normal path with direction Write, returns a Sync-Read
request. -/
theorem dispatch_write_preference_example :
    (dispatch_expired_phase ex_reads_and_write 0).2 = none ∧
    (dispatch_expired_phase (rohie_dispatch_requests ex_reads_and_write 0).1 0).2 = none ∧
    (dispatch_run ex_reads_and_write [0, 0]).2 =
      [some ⟨3, SYNC, READ, 100⟩, some ⟨2, SYNC, READ, 100⟩] ∧
    ex_starving = (dispatch_run ex_reads_and_write [0, 0]).1 ∧
    ex_starving.starved = 2 ∧ ex_starving.writes_starved = 1 ∧
    ex_starving.starved > to_uint ex_starving.writes_starved ∧
    fifo_list ex_starving ASYNC WRITE = [⟨4, ASYNC, WRITE, 200⟩] ∧
    (dispatch_expired_phase ex_starving 0).2 = none ∧
    dispatch_data_dir ex_starving = WRITE ∧
    (rohie_dispatch_requests ex_starving 0).2 = some ⟨1, SYNC, READ, 100⟩ := by
  decide

/-- C8, amended: when the test `starved > writes_starved` of the code holds (made on
`unsigned int`, `writes_starved` being converted; the comparison of the values as
integers when `writes_starved` is not negative) and the dispatch takes the normal path,
the selection runs with direction Write and returns
what `rohie_choose_request` returns for Write: the head of Sync-Write if that list is
non-empty, else the head of Sync-Read if that list is non-empty, else the head of
Async-Write. When the Write lists hold Write requests only, a Write request is
returned, and `starved` reset to 0, if Sync-Write is non-empty or if Sync-Read is
empty and Async-Write is non-empty. -/
theorem rohie_dispatch_requests_write_preference (td : rohie_data) (now : Int)
    (hs : td.starved > to_uint td.writes_starved)
    (hn : (dispatch_expired_phase td now).2 = none) :
    dispatch_data_dir td = WRITE ∧
    (rohie_dispatch_requests td now).2 = rohie_choose_request td WRITE ∧
    (∀ rq l, fifo_list td SYNC WRITE = rq :: l →
      (rohie_dispatch_requests td now).2 = some rq) ∧
    (fifo_list td SYNC WRITE = [] → ∀ rq l, fifo_list td SYNC READ = rq :: l →
      (rohie_dispatch_requests td now).2 = some rq) ∧
    (fifo_list td SYNC WRITE = [] → fifo_list td SYNC READ = [] →
      ∀ rq l, fifo_list td ASYNC WRITE = rq :: l →
        (rohie_dispatch_requests td now).2 = some rq) ∧
    ((∀ s, ∀ x ∈ fifo_list td s WRITE, x.data_dir = WRITE) →
      (fifo_list td SYNC WRITE ≠ [] ∨
        (fifo_list td SYNC READ = [] ∧ fifo_list td ASYNC WRITE ≠ [])) →
      ∃ rq, (rohie_dispatch_requests td now).2 = some rq ∧ rq.data_dir = WRITE ∧
        (rohie_dispatch_requests td now).1.starved = 0) ∧
    (0 ≤ td.writes_starved → td.writes_starved < 2 ^ 31 →
      (td.starved > to_uint td.writes_starved ↔ (td.starved : Int) > td.writes_starved)) := by
  have hdd : dispatch_data_dir td = WRITE := by
    unfold dispatch_data_dir; rw [if_pos hs]
  obtain ⟨r1, r2⟩ := rohie_dispatch_requests_normal td now hn
  rw [hdd] at r1 r2
  have c1 : ∀ rq l, fifo_list td SYNC WRITE = rq :: l →
      rohie_choose_request td WRITE = some rq := by
    intro rq l h; simp [rohie_choose_request, h]
  have c2 : fifo_list td SYNC WRITE = [] → ∀ rq l, fifo_list td SYNC READ = rq :: l →
      rohie_choose_request td WRITE = some rq := by
    intro h0 rq l h; simp [rohie_choose_request, h0, h]
  have c3 : fifo_list td SYNC WRITE = [] → fifo_list td SYNC READ = [] →
      ∀ rq l, fifo_list td ASYNC WRITE = rq :: l →
      rohie_choose_request td WRITE = some rq := by
    intro h0 h1 rq l h; simp [rohie_choose_request, h0, h1, h]
  refine ⟨hdd, r1, ?_, ?_, ?_, ?_, gt_to_uint_iff _ _⟩
  · intro rq l h; rw [r1]; exact c1 rq l h
  · intro h0 rq l h; rw [r1]; exact c2 h0 rq l h
  · intro h0 h1 rq l h; rw [r1]; exact c3 h0 h1 rq l h
  · intro htag hcase
    have key : ∃ rq s l, fifo_list td s WRITE = rq :: l ∧
        rohie_choose_request td WRITE = some rq := by
      rcases hcase with h | ⟨h1, h2⟩
      · cases hq : fifo_list td SYNC WRITE with
        | nil => exact absurd hq h
        | cons rq l => exact ⟨rq, SYNC, l, hq, c1 rq l hq⟩
      · cases hq : fifo_list td ASYNC WRITE with
        | nil => exact absurd hq h2
        | cons rq l =>
          cases hq0 : fifo_list td SYNC WRITE with
          | nil => exact ⟨rq, ASYNC, l, hq, c3 hq0 h1 rq l hq⟩
          | cons rq0 l0 => exact ⟨rq0, SYNC, l0, hq0, c1 rq0 l0 hq0⟩
    obtain ⟨rq, s, l, hq, hc⟩ := key
    have hw : rq.data_dir = WRITE := htag s rq (by rw [hq]; simp)
    refine ⟨rq, by rw [r1]; exact hc, hw, ?_⟩
    rw [r2, hc]
    simp only
    rw [(fields_dispatch_request _ rq).2.1, if_pos hw]

/-- The amended C8 statement at a concrete state: `starved = 2`, `writes_starved = 1`,
a Sync-Read and a Sync-Write queued. -/
theorem rohie_dispatch_requests_write_preference_witness :
    ex_write_due.starved > to_uint ex_write_due.writes_starved ∧
    (dispatch_expired_phase ex_write_due 0).2 = none ∧
    (rohie_dispatch_requests ex_write_due 0).2 = some ⟨2, SYNC, WRITE, 100⟩ ∧
    dispatch_data_dir ex_write_due = WRITE :=
  ⟨by decide, by decide, by decide,
    (rohie_dispatch_requests_write_preference ex_write_due 0 (by decide) (by decide)).1⟩

/-! ## Merging two requests (C9, C10) -/

theorem mem_all_rqs (td : rohie_data) (x : request) :
    x ∈ all_rqs td ↔ ∃ s d, x ∈ fifo_list td s d := by
  unfold all_rqs
  simp only [List.mem_append]
  constructor
  · rintro (((h | h) | h) | h) <;> exact ⟨_, _, h⟩
  · rintro ⟨s, d, h⟩
    cases s <;> cases d <;> simp only [fifo_list] at h ⊢ <;> tauto

theorem find_rq_some (td : rohie_data) (id : Nat) (r : request) (h : find_rq td id = some r) :
    r ∈ all_rqs td ∧ r.id = id := by
  unfold find_rq at h
  refine ⟨List.mem_of_find?_eq_some h, ?_⟩
  simpa using List.find?_some h

theorem mem_list_del (id : Nat) (l : List request) (x : request) :
    x ∈ list_del id l ↔ x ∈ l ∧ x.id ≠ id := by
  simp [list_del]

theorem list_del_append (id : Nat) (l1 l2 : List request) :
    list_del id (l1 ++ l2) = list_del id l1 ++ list_del id l2 := by
  simp [list_del]

theorem nodup_list_del (id : Nat) (l : List request) (h : (l.map request.id).Nodup) :
    ((list_del id l).map request.id).Nodup :=
  List.Nodup.sublist (List.Sublist.map _ (List.filter_sublist l)) h

theorem list_set_fifo_time_of_not_mem (id : Nat) (t : Int) (l : List request)
    (h : ∀ x ∈ l, x.id ≠ id) : list_set_fifo_time id t l = l := by
  unfold list_set_fifo_time
  induction l with
  | nil => rfl
  | cons x l ih =>
    have hx : x.id ≠ id := h x (by simp)
    simp only [List.map_cons, if_neg hx]
    rw [ih (fun y hy => h y (by simp [hy]))]

theorem map_replace_of_not_mem (next : Nat) (r1 : request) (l : List request)
    (h : ∀ x ∈ l, x.id ≠ next) :
    l.map (fun x => if x.id = next then r1 else x) = l := by
  induction l with
  | nil => rfl
  | cons x l ih =>
    have hx : x.id ≠ next := h x (by simp)
    simp only [List.map_cons, if_neg hx]
    rw [ih (fun y hy => h y (by simp [hy]))]

theorem list_del_cons_ne (id : Nat) (x : request) (l : List request) (h : x.id ≠ id) :
    list_del id (x :: l) = x :: list_del id l := by
  simp [list_del, h]

theorem list_del_cons_eq (id : Nat) (x : request) (l : List request) (h : x.id = id) :
    list_del id (x :: l) = list_del id l := by
  simp [list_del, h]

/-- Linking `r` after the node `next`, giving it the deadline `t` and unlinking `next`
leaves `r` with its new deadline in the place `next` had. -/
theorem list_move_take_place (rq next : Nat) (t : Int) (r : request) (l : List request)
    (hr : r.id = rq) (hne : rq ≠ next) (h1 : ∀ x ∈ l, x.id ≠ rq)
    (h2 : (l.map request.id).Nodup) :
    list_del next (list_set_fifo_time rq t (list_add_after r next l)) =
      l.map (fun x => if x.id = next then { r with fifo_time := t } else x) := by
  induction l with
  | nil => rfl
  | cons x l ih =>
    have hx : x.id ≠ rq := h1 x (by simp)
    have hl : ∀ y ∈ l, y.id ≠ rq := fun y hy => h1 y (by simp [hy])
    simp only [List.map_cons, List.nodup_cons, List.mem_map, not_exists, not_and] at h2
    by_cases hxn : x.id = next
    · have hl2 : ∀ y ∈ l, y.id ≠ next := fun y hy he => h2.1 y hy (he.trans hxn.symm)
      have e0 : list_add_after r next (x :: l) = x :: r :: l := by
        simp [list_add_after, hxn]
      have e1 : list_set_fifo_time rq t (x :: r :: l) =
          x :: { r with fifo_time := t } :: l := by
        have := list_set_fifo_time_of_not_mem rq t l hl
        unfold list_set_fifo_time at this ⊢
        simp only [List.map_cons, if_neg hx, if_pos hr, this]
      rw [e0, e1, list_del_cons_eq _ _ _ hxn,
        list_del_cons_ne _ _ _ (by show r.id ≠ next; rw [hr]; exact hne),
        list_del_of_not_mem _ _ hl2]
      simp only [List.map_cons, if_pos hxn]
      rw [map_replace_of_not_mem _ _ _ hl2]
    · have e0 : list_add_after r next (x :: l) = x :: list_add_after r next l := by
        simp [list_add_after, hxn]
      have e1 : list_set_fifo_time rq t (x :: list_add_after r next l) =
          x :: list_set_fifo_time rq t (list_add_after r next l) := by
        unfold list_set_fifo_time
        simp only [List.map_cons, if_neg hx]
      rw [e0, e1, list_del_cons_ne _ _ _ hxn, ih hl h2.2]
      simp only [List.map_cons, if_neg hxn]

/-- The four lists after a merge in which the absorbed request has the earlier
deadline. -/
theorem fifo_list_merged_earlier (td : rohie_data) (rq next : Nat) (r n : request)
    (hd : nodes_distinct td) (hr : find_rq td rq = some r) (hn : find_rq td next = some n)
    (hne : rq ≠ next) (ht : n.fifo_time < r.fifo_time) (s d : Bool) :
    fifo_list (rohie_merged_requests td rq next) s d =
      (list_del rq (fifo_list td s d)).map
        (fun x => if x.id = next then { r with fifo_time := n.fifo_time } else x) := by
  have hrid := (find_rq_some td rq r hr).2
  subst hrid
  unfold rohie_merged_requests
  simp only [hr, hn, time_before, time_after, ht, decide_True, if_true, rq_fifo_clear,
    list_move, fifo_list_map_lists]
  apply list_move_take_place r.id next n.fifo_time r _ rfl hne
  · intro x hx; exact ((mem_list_del _ _ _).1 hx).2
  · exact nodup_list_del _ _ (nodes_distinct_list td hd s d)

/-- The four lists after a merge in which the absorbed request does not have the
earlier deadline. -/
theorem fifo_list_merged_not_earlier (td : rohie_data) (rq next : Nat) (r n : request)
    (hr : find_rq td rq = some r) (hn : find_rq td next = some n)
    (ht : ¬ n.fifo_time < r.fifo_time) (s d : Bool) :
    fifo_list (rohie_merged_requests td rq next) s d = list_del next (fifo_list td s d) := by
  unfold rohie_merged_requests
  simp only [hr, hn, time_before, time_after, ht, decide_False, rq_fifo_clear,
    fifo_list_map_lists]
  simp

theorem fields_merged (td : rohie_data) (rq next : Nat) :
    (rohie_merged_requests td rq next).batched = td.batched ∧
    (rohie_merged_requests td rq next).starved = td.starved := by
  unfold rohie_merged_requests
  cases find_rq td rq <;> cases find_rq td next <;> simp only [] <;> try exact ⟨rfl, rfl⟩
  split <;> exact ⟨rfl, rfl⟩

theorem all_rqs_merged_earlier (td : rohie_data) (rq next : Nat) (r n : request)
    (hd : nodes_distinct td) (hr : find_rq td rq = some r) (hn : find_rq td next = some n)
    (hne : rq ≠ next) (ht : n.fifo_time < r.fifo_time) :
    all_rqs (rohie_merged_requests td rq next) =
      (list_del rq (all_rqs td)).map
        (fun x => if x.id = next then { r with fifo_time := n.fifo_time } else x) := by
  unfold all_rqs
  simp only [fifo_list_merged_earlier td rq next r n hd hr hn hne ht, list_del_append,
    List.map_append]

theorem all_rqs_merged_not_earlier (td : rohie_data) (rq next : Nat) (r n : request)
    (hr : find_rq td rq = some r) (hn : find_rq td next = some n)
    (ht : ¬ n.fifo_time < r.fifo_time) :
    all_rqs (rohie_merged_requests td rq next) = list_del next (all_rqs td) := by
  unfold all_rqs
  simp only [fifo_list_merged_not_earlier td rq next r n hr hn ht, list_del_append]

theorem find_list_del_ne (i j : Nat) (l : List request) (h : i ≠ j) :
    (list_del j l).find? (fun x => x.id == i) = l.find? (fun x => x.id == i) := by
  induction l with
  | nil => rfl
  | cons x l ih =>
    by_cases hx : x.id = j
    · rw [list_del_cons_eq _ _ _ hx, ih]
      have : (x.id == i) = false := by
        simp only [beq_eq_false_iff_ne]; rw [hx]; exact fun e => h e.symm
      simp [List.find?_cons, this]
    · rw [list_del_cons_ne _ _ _ hx]
      simp only [List.find?_cons, ih]

theorem find_list_del_self (j : Nat) (l : List request) :
    (list_del j l).find? (fun x => x.id == j) = none := by
  rw [List.find?_eq_none]
  intro x hx
  simpa using ((mem_list_del _ _ _).1 hx).2

theorem find_replace_other (i next : Nat) (r1 : request) (l : List request)
    (h1 : i ≠ r1.id) (h2 : i ≠ next) :
    (l.map (fun x => if x.id = next then r1 else x)).find? (fun x => x.id == i) =
      l.find? (fun x => x.id == i) := by
  induction l with
  | nil => rfl
  | cons x l ih =>
    by_cases hx : x.id = next
    · have e1 : (r1.id == i) = false := by
        simp only [beq_eq_false_iff_ne]; exact fun e => h1 e.symm
      have e2 : (x.id == i) = false := by
        simp only [beq_eq_false_iff_ne]; rw [hx]; exact fun e => h2 e.symm
      simp only [List.map_cons, if_pos hx, List.find?_cons, e1, e2, ih]
    · simp only [List.map_cons, if_neg hx, List.find?_cons, ih]

theorem find_replace_self (next : Nat) (r1 : request) (l : List request)
    (h1 : ∀ x ∈ l, x.id ≠ r1.id) (h2 : ∃ x ∈ l, x.id = next) :
    (l.map (fun x => if x.id = next then r1 else x)).find? (fun x => x.id == r1.id) =
      some r1 := by
  induction l with
  | nil => simp at h2
  | cons x l ih =>
    by_cases hx : x.id = next
    · simp [List.find?_cons, hx]
    · have e2 : (x.id == r1.id) = false := by
        simp only [beq_eq_false_iff_ne]; exact h1 x (by simp)
      simp only [List.map_cons, if_neg hx, List.find?_cons, e2]
      apply ih (fun y hy => h1 y (by simp [hy]))
      obtain ⟨y, hy, hyn⟩ := h2
      simp only [List.mem_cons] at hy
      rcases hy with rfl | hy
      · exact absurd hyn hx
      · exact ⟨y, hy, hyn⟩

theorem find_replace_next (next : Nat) (r1 : request) (l : List request)
    (h1 : r1.id ≠ next) :
    (l.map (fun x => if x.id = next then r1 else x)).find? (fun x => x.id == next) = none := by
  rw [List.find?_eq_none]
  intro x hx
  simp only [List.mem_map] at hx
  obtain ⟨y, -, rfl⟩ := hx
  by_cases hy : y.id = next
  · simp [hy, h1]
  · simp [hy]

/-- C9: in a state where every node is linked once, for two distinct queued requests,
`rq` (the survivor, deadline `r.fifo_time`) and `next` (the absorbed one, deadline
`n.fifo_time`), after `rohie_merged_requests` the survivor is queued with the deadline
of `next` when that one is earlier and with its own deadline otherwise, that is with
the earlier of the two deadlines; every other queued request is found unchanged,
deadline included. -/
theorem rohie_merged_requests_deadline (td : rohie_data) (rq next : Nat) (r n : request)
    (hd : nodes_distinct td) (hr : find_rq td rq = some r) (hn : find_rq td next = some n)
    (hne : rq ≠ next) :
    (n.fifo_time < r.fifo_time →
      find_rq (rohie_merged_requests td rq next) rq = some { r with fifo_time := n.fifo_time }) ∧
    (r.fifo_time ≤ n.fifo_time → find_rq (rohie_merged_requests td rq next) rq = some r) ∧
    find_rq (rohie_merged_requests td rq next) rq =
      some { r with fifo_time := min n.fifo_time r.fifo_time } ∧
    ∀ id, id ≠ rq → id ≠ next →
      find_rq (rohie_merged_requests td rq next) id = find_rq td id := by
  obtain ⟨hrm, hrid⟩ := find_rq_some td rq r hr
  obtain ⟨hnm, hnid⟩ := find_rq_some td next n hn
  subst hrid
  have A : n.fifo_time < r.fifo_time →
      find_rq (rohie_merged_requests td r.id next) r.id =
        some { r with fifo_time := n.fifo_time } := by
    intro ht
    unfold find_rq
    rw [all_rqs_merged_earlier td r.id next r n hd hr hn hne ht]
    exact find_replace_self next { r with fifo_time := n.fifo_time } (list_del r.id (all_rqs td))
      (fun x hx => ((mem_list_del _ _ _).1 hx).2)
      ⟨n, (mem_list_del _ _ _).2 ⟨hnm, by rw [hnid]; exact fun e => hne e.symm⟩, hnid⟩
  have B : r.fifo_time ≤ n.fifo_time →
      find_rq (rohie_merged_requests td r.id next) r.id = some r := by
    intro ht
    unfold find_rq
    rw [all_rqs_merged_not_earlier td r.id next r n hr hn (not_lt.2 ht),
      find_list_del_ne r.id next _ hne]
    exact hr
  refine ⟨A, B, ?_, ?_⟩
  · by_cases ht : n.fifo_time < r.fifo_time
    · rw [A ht, min_eq_left (le_of_lt ht)]
    · rw [B (not_lt.1 ht), min_eq_right (not_lt.1 ht)]
  · intro id h1 h2
    by_cases ht : n.fifo_time < r.fifo_time
    · unfold find_rq
      rw [all_rqs_merged_earlier td r.id next r n hd hr hn hne ht,
        find_replace_other id next { r with fifo_time := n.fifo_time } _ h1 h2,
        find_list_del_ne id r.id _ h1]
    · unfold find_rq
      rw [all_rqs_merged_not_earlier td r.id next r n hr hn ht, find_list_del_ne id next _ h2]

/-- The C9 statement at a concrete state: deadlines 150 (survivor) and 100. -/
theorem rohie_merged_requests_deadline_witness :
    nodes_distinct ex_merge_reads ∧ find_rq ex_merge_reads 1 = some ⟨1, SYNC, READ, 150⟩ ∧
    find_rq ex_merge_reads 2 = some ⟨2, SYNC, READ, 100⟩ ∧
    find_rq (rohie_merged_requests ex_merge_reads 1 2) 1 =
      some { (⟨1, SYNC, READ, 150⟩ : request) with fifo_time := min 100 150 } :=
  ⟨by decide, by decide, by decide,
    (rohie_merged_requests_deadline ex_merge_reads 1 2 ⟨1, SYNC, READ, 150⟩
      ⟨2, SYNC, READ, 100⟩
      (by decide) (by decide) (by decide) (by decide)).2.2.1⟩

/-- C10: in a state where every node is linked once, for two distinct queued requests
`rq` (survivor) and `next` (absorbed), after
`rohie_merged_requests` the absorbed request is in no list. If its deadline was the
earlier one, the list that held it as `pre ++ n :: post` now holds the survivor at
that very place, between the entries of `pre` and of `post` other than the survivor
itself, and every list not holding `n` merely loses the survivor; otherwise every
list merely loses the absorbed request. `batched` and `starved` are unchanged. -/
theorem rohie_merged_requests_position (td : rohie_data) (rq next : Nat) (r n : request)
    (hd : nodes_distinct td) (hr : find_rq td rq = some r) (hn : find_rq td next = some n)
    (hne : rq ≠ next) :
    find_rq (rohie_merged_requests td rq next) next = none ∧
    (n.fifo_time < r.fifo_time →
      (∀ s d pre post, fifo_list td s d = pre ++ n :: post →
        fifo_list (rohie_merged_requests td rq next) s d =
          list_del rq pre ++ { r with fifo_time := n.fifo_time } :: list_del rq post) ∧
      (∀ s d, n ∉ fifo_list td s d →
        fifo_list (rohie_merged_requests td rq next) s d = list_del rq (fifo_list td s d))) ∧
    (r.fifo_time ≤ n.fifo_time →
      ∀ s d, fifo_list (rohie_merged_requests td rq next) s d =
        list_del next (fifo_list td s d)) ∧
    (rohie_merged_requests td rq next).batched = td.batched ∧
    (rohie_merged_requests td rq next).starved = td.starved := by
  obtain ⟨hrm, hrid⟩ := find_rq_some td rq r hr
  obtain ⟨hnm, hnid⟩ := find_rq_some td next n hn
  refine ⟨?_, ?_, ?_, fields_merged td rq next⟩
  · by_cases ht : n.fifo_time < r.fifo_time
    · unfold find_rq
      rw [all_rqs_merged_earlier td rq next r n hd hr hn hne ht]
      exact find_replace_next next _ _ (by show r.id ≠ next; rw [hrid]; exact hne)
    · unfold find_rq
      rw [all_rqs_merged_not_earlier td rq next r n hr hn ht]
      exact find_list_del_self next _
  · intro ht
    constructor
    · intro s d pre post hq
      have hnd := nodes_distinct_list td hd s d
      rw [hq] at hnd
      rw [List.map_append, List.map_cons, List.nodup_append] at hnd
      obtain ⟨-, hnp, hdis⟩ := hnd
      have hpost := (List.nodup_cons.1 hnp).1
      have e1 : ∀ x ∈ list_del rq pre, x.id ≠ next := by
        intro x hx he
        have hx1 := ((mem_list_del _ _ _).1 hx).1
        exact hdis (List.mem_map_of_mem request.id hx1) (by rw [he, hnid]; simp)
      have e2 : ∀ x ∈ list_del rq post, x.id ≠ next := by
        intro x hx he
        have hx1 := ((mem_list_del _ _ _).1 hx).1
        apply hpost
        rw [hnid, ← he]
        exact List.mem_map_of_mem request.id hx1
      rw [fifo_list_merged_earlier td rq next r n hd hr hn hne ht, hq, list_del_append,
        list_del_cons_ne _ _ _ (by rw [hnid]; exact fun e => hne e.symm)]
      simp only [List.map_append, List.map_cons, if_pos hnid]
      rw [map_replace_of_not_mem _ _ _ e1, map_replace_of_not_mem _ _ _ e2]
    · intro s d hnot
      rw [fifo_list_merged_earlier td rq next r n hd hr hn hne ht]
      apply map_replace_of_not_mem
      intro x hx he
      have hx1 := ((mem_list_del _ _ _).1 hx).1
      have hxa : x ∈ all_rqs td := (mem_all_rqs td x).2 ⟨s, d, hx1⟩
      have : x = n := List.inj_on_of_nodup_map hd hxa hnm (by rw [he, hnid])
      exact hnot (this ▸ hx1)
  · intro ht s d
    exact fifo_list_merged_not_earlier td rq next r n hr hn (not_lt.2 ht) s d

/-- The C10 statement at a concrete state: the survivor moves from Sync-Read to the
place of the absorbed request in Sync-Write. -/
theorem rohie_merged_requests_position_witness :
    nodes_distinct ex_merge_cross ∧ find_rq ex_merge_cross 1 = some ⟨1, SYNC, READ, 150⟩ ∧
    find_rq ex_merge_cross 2 = some ⟨2, SYNC, WRITE, 100⟩ ∧
    fifo_list (rohie_merged_requests ex_merge_cross 1 2) SYNC WRITE =
      [⟨3, SYNC, WRITE, 100⟩, ⟨1, SYNC, READ, 100⟩] ∧
    fifo_list (rohie_merged_requests ex_merge_cross 1 2) SYNC READ = [] ∧
    find_rq (rohie_merged_requests ex_merge_cross 1 2) 2 = none :=
  ⟨by decide, by decide, by decide, by decide, by decide,
    (rohie_merged_requests_position ex_merge_cross 1 2 ⟨1, SYNC, READ, 150⟩
      ⟨2, SYNC, WRITE, 100⟩
      (by decide) (by decide) (by decide) (by decide)).1⟩

/-! ## Expiry bound (C7) -/

theorem rohie_choose_request_none (td : rohie_data) (data_dir : Bool)
    (h : rohie_choose_request td data_dir = none) (s d : Bool) : fifo_list td s d = [] := by
  unfold rohie_choose_request at h
  cases h1 : fifo_list td SYNC data_dir <;> cases h2 : fifo_list td SYNC (!data_dir) <;>
    cases h3 : fifo_list td ASYNC data_dir <;> cases h4 : fifo_list td ASYNC (!data_dir) <;>
    simp [h1, h2, h3, h4] at h
  cases s <;> cases d <;> cases data_dir <;> simp_all

theorem all_rqs_dispatch_request (td : rohie_data) (rq : request) :
    all_rqs (rohie_dispatch_request td rq) = list_del rq.id (all_rqs td) := by
  unfold all_rqs
  simp only [(fields_dispatch_request td rq).2.2.2.2.2, list_del_append]

theorem all_rqs_expired_phase (td : rohie_data) (now : Int) :
    all_rqs (dispatch_expired_phase td now).1 = all_rqs td := by
  unfold all_rqs
  simp only [fifo_list_expired_phase]

theorem nodes_distinct_dispatch_requests (td : rohie_data) (now : Int)
    (h : nodes_distinct td) : nodes_distinct (rohie_dispatch_requests td now).1 := by
  unfold nodes_distinct at h ⊢
  cases hr : (rohie_dispatch_requests td now).2 with
  | some rq =>
    rw [(rohie_dispatch_requests_some td now rq hr).1, all_rqs_dispatch_request,
      all_rqs_expired_phase]
    exact nodup_list_del _ _ h
  | none =>
    have : all_rqs (rohie_dispatch_requests td now).1 = all_rqs td := by
      unfold rohie_dispatch_requests at hr ⊢
      cases h1 : (dispatch_expired_phase td now).2 with
      | some a => simp [h1] at hr
      | none =>
        simp only [h1] at hr ⊢
        cases h2 : rohie_choose_request (dispatch_expired_phase td now).1
            (dispatch_data_dir (dispatch_expired_phase td now).1) with
        | some a => simp [h2] at hr
        | none => simp only [h2]; exact all_rqs_expired_phase td now
    rw [this]; exact h

/-- The expired scan returns the head of a list when that head is expired and no head
of a list scanned earlier is. -/
theorem rohie_choose_expired_request_head (td : rohie_data) (now : Int) (s d : Bool)
    (x : request) (rest : List request) (hq : fifo_list td s d = x :: rest)
    (hx : x.fifo_time < now)
    (hp : ∀ p ∈ scanned_before s d, rohie_expired_request td now p.1 p.2 = none) :
    rohie_choose_expired_request td now = some x := by
  have hs : rohie_expired_request td now s d = some x := by
    rw [rohie_expired_request_eq_some]; rw [hq]; exact ⟨rfl, hx⟩
  unfold rohie_choose_expired_request
  cases s <;> cases d <;> simp only [scanned_before, List.mem_cons, List.mem_singleton,
    List.not_mem_nil, or_false, forall_eq_or_imp, forall_eq] at hp
  · rw [hp, hs]
  · rw [hs]
  · rw [hp.1, hp.2.1, hp.2.2, hs]
  · rw [hp.1, hp.2, hs]

theorem dispatch_run_cons (td : rohie_data) (t : Int) (ts : List Int) :
    (dispatch_run td (t :: ts)).2 =
      (rohie_dispatch_requests td t).2 :: (dispatch_run (rohie_dispatch_requests td t).1 ts).2 :=
  rfl

/-- Generalised form of the expiry bound: the remaining calls suffice to bring `batched`
above `fifo_batch` and to perform one more call. -/
theorem expiry_bound_aux (s d : Bool) (x : request) (F : Nat) (hF : F < 2 ^ 31) :
    ∀ (ts : List Int) (td : rohie_data) (rest : List request),
      nodes_distinct td → to_uint td.fifo_batch = F → fifo_list td s d = x :: rest →
      1 ≤ ts.length → F + 2 ≤ ts.length + td.batched →
      (∀ t ∈ ts, x.fifo_time < t) → not_preempted s d td ts = true →
      some x ∈ (dispatch_run td ts).2 := by
  intro ts
  induction ts with
  | nil => intro td rest _ _ _ h; simp at h
  | cons t ts ih =>
    intro td rest hd hfb hq _ hlen hexp hpre
    rw [dispatch_run_cons]
    simp only [not_preempted, Bool.and_eq_true, List.all_eq_true, Option.isNone_iff_eq_none]
      at hpre
    obtain ⟨hp0, hp1⟩ := hpre
    have hxt : x.fifo_time < t := hexp t (by simp)
    by_cases hb : td.batched > to_uint td.fifo_batch
    · -- the expired scan is performed and finds `x`
      have h1 := (dispatch_expired_phase_of_gt td t hb).1
      rw [rohie_choose_expired_request_head td t s d x rest hq hxt hp0] at h1
      rw [(rohie_dispatch_requests_expired td t x h1).1]
      simp
    · -- normal path: some head is returned
      have hph := dispatch_expired_phase_of_le td t hb
      have hn : (dispatch_expired_phase td t).2 = none := by rw [hph]
      obtain ⟨r1, r2⟩ := rohie_dispatch_requests_normal td t hn
      cases hc : rohie_choose_request td (dispatch_data_dir td) with
      | none =>
        have := rohie_choose_request_none td _ hc s d
        rw [hq] at this; simp at this
      | some rq =>
        by_cases hrx : rq = x
        · rw [r1, hc, hrx]; simp
        · apply List.mem_cons_of_mem
          obtain ⟨s1, d1, rest1, hq1⟩ := rohie_choose_request_some td _ rq hc
          have hid : x.id ≠ rq.id := by
            intro he
            apply hrx
            have hxa : x ∈ all_rqs td := (mem_all_rqs td x).2 ⟨s, d, by rw [hq]; simp⟩
            have hra : rq ∈ all_rqs td := (mem_all_rqs td rq).2 ⟨s1, d1, by rw [hq1]; simp⟩
            exact (List.inj_on_of_nodup_map hd hxa hra he).symm
          have hst : (rohie_dispatch_requests td t).1 = rohie_dispatch_request td rq := by
            rw [r2, hc, hph]
          obtain ⟨fb, -, ffb, -, -, fl⟩ := fields_dispatch_request td rq
          have hlt : td.batched + 1 < UINT_MOD := by
            unfold UINT_MOD; omega
          apply ih (rohie_dispatch_requests td t).1 (list_del rq.id rest)
            (nodes_distinct_dispatch_requests td t hd)
          · rw [hst, ffb]; exact hfb
          · rw [hst, fl, hq, list_del_cons_ne _ _ _ hid]
          · simp only [List.length_cons] at hlen; omega
          · rw [hst, fb, Nat.mod_eq_of_lt hlt]
            simp only [List.length_cons] at hlen; omega
          · intro t1 ht1; exact hexp t1 (by simp [ht1])
          · exact hp1

/-- C7 fails as stated: on a fresh scheduler (`fifo_batch = 1`, `batched = 0`) the
Async-Write head with deadline 200 is expired at clock 300, no list is scanned before
its list, yet the next `fifo_batch + 1 = 2` dispatch calls return the two Sync-Read
requests; the expired request comes out on the third call. -/
theorem dispatch_expiry_bound_example :
    ex_expired.fifo_batch = 1 ∧ ex_expired.batched = 0 ∧
    fifo_list ex_expired ASYNC WRITE = [⟨1, ASYNC, WRITE, 200⟩] ∧
    (200 : Int) < 300 ∧
    not_preempted ASYNC WRITE ex_expired [300, 300] = true ∧
    (dispatch_run ex_expired [300, 300]).2 =
      [some ⟨3, SYNC, READ, 350⟩, some ⟨2, SYNC, READ, 350⟩] ∧
    some ⟨1, ASYNC, WRITE, 200⟩ ∉ (dispatch_run ex_expired [300, 300]).2 ∧
    (dispatch_run ex_expired [300, 300, 300]).2 =
      [some ⟨3, SYNC, READ, 350⟩, some ⟨2, SYNC, READ, 350⟩, some ⟨1, ASYNC, WRITE, 200⟩] := by
  decide

/-- C7, amended: let nodes be linked once, `0 ≤ fifo_batch`, and let `x` be the head of
its list. For every run of at least one dispatch call, of at least
`fifo_batch + 2 - batched` calls, at clock values strictly after the deadline of `x` and
such that at no call the head of a list scanned earlier is expired, `x` is returned by
one of the calls: `fifo_batch + 2` calls always suffice, `fifo_batch + 1` suffice when
`batched ≥ 1`. Moreover every call entered with `batched > fifo_batch` in such a
situation returns `x` through the expired scan. -/
theorem rohie_dispatch_expiry_bound (td : rohie_data) (s d : Bool) (x : request)
    (rest : List request) (ts : List Int)
    (hd : nodes_distinct td) (h0 : 0 ≤ td.fifo_batch) (h1 : td.fifo_batch < 2 ^ 31)
    (hq : fifo_list td s d = x :: rest)
    (hlen1 : 1 ≤ ts.length)
    (hlen : td.fifo_batch + 2 ≤ (ts.length : Int) + td.batched)
    (hexp : ∀ t ∈ ts, x.fifo_time < t)
    (hpre : not_preempted s d td ts = true) :
    some x ∈ (dispatch_run td ts).2 ∧
    ∀ (td2 : rohie_data) (t : Int) (rest2 : List request),
      fifo_list td2 s d = x :: rest2 → x.fifo_time < t →
      (∀ p ∈ scanned_before s d, rohie_expired_request td2 t p.1 p.2 = none) →
      td2.batched > to_uint td2.fifo_batch →
      (dispatch_expired_phase td2 t).2 = some x ∧ (rohie_dispatch_requests td2 t).2 = some x := by
  constructor
  · have hu := to_uint_of_nonneg td.fifo_batch h0 (by omega)
    apply expiry_bound_aux s d x td.fifo_batch.toNat (by omega) ts td rest hd hu hq
    · exact hlen1
    · omega
    · exact hexp
    · exact hpre
  · intro td2 t rest2 hq2 hx hp hb
    have h1 := (dispatch_expired_phase_of_gt td2 t hb).1
    rw [rohie_choose_expired_request_head td2 t s d x rest2 hq2 hx hp] at h1
    exact ⟨h1, (rohie_dispatch_requests_expired td2 t x h1).1⟩

/-- The amended C7 bound at a concrete state: a fresh scheduler with an expired
Async-Write head and two Sync-Read requests, three calls. -/
theorem rohie_dispatch_expiry_bound_witness :
    nodes_distinct ex_expired ∧ fifo_list ex_expired ASYNC WRITE = [⟨1, ASYNC, WRITE, 200⟩] ∧
    not_preempted ASYNC WRITE ex_expired [300, 300, 300] = true ∧
    some ⟨1, ASYNC, WRITE, 200⟩ ∈ (dispatch_run ex_expired [300, 300, 300]).2 :=
  ⟨by decide, by decide, by decide,
    (rohie_dispatch_expiry_bound ex_expired ASYNC WRITE ⟨1, ASYNC, WRITE, 200⟩ [] [300, 300, 300]
      (by decide) (by decide) (by decide) (by decide) (by decide) (by decide) (by decide)
      (by decide)).1⟩

/-! ## Empty result of a dispatch (C12) -/

theorem rohie_choose_request_eq_none_iff (td : rohie_data) (data_dir : Bool) :
    rohie_choose_request td data_dir = none ↔ ∀ s d, fifo_list td s d = [] := by
  constructor
  · exact rohie_choose_request_none td data_dir
  · intro h
    simp [rohie_choose_request, h]

theorem rohie_choose_expired_request_of_empty (td : rohie_data) (now : Int)
    (h : ∀ s d, fifo_list td s d = []) : rohie_choose_expired_request td now = none := by
  rw [rohie_choose_expired_request_eq_none]
  intro s d rq hq
  rw [h s d] at hq
  simp at hq

/-- A dispatch that returns nothing leaves the four lists as they were. -/
theorem fifo_list_dispatch_requests_none (td : rohie_data) (now : Int)
    (h : (rohie_dispatch_requests td now).2 = none) :
    ∀ s d, fifo_list (rohie_dispatch_requests td now).1 s d = fifo_list td s d := by
  cases h1 : (dispatch_expired_phase td now).2 with
  | some rq =>
    rw [(rohie_dispatch_requests_expired td now rq h1).1] at h
    simp at h
  | none =>
    obtain ⟨r1, r2⟩ := rohie_dispatch_requests_normal td now h1
    rw [h] at r1
    rw [← r1] at r2
    simp only at r2
    rw [r2]
    exact fifo_list_expired_phase td now

/-- C12: a dispatch returns nothing exactly when all four lists are empty, so it returns
a request whenever one is queued in any list; when it returns nothing the four lists
and `starved` are what they were. -/
theorem rohie_dispatch_requests_none_iff (td : rohie_data) (now : Int) :
    ((rohie_dispatch_requests td now).2 = none ↔ ∀ s d, fifo_list td s d = []) ∧
    ((rohie_dispatch_requests td now).2 = none →
      (∀ s d, fifo_list (rohie_dispatch_requests td now).1 s d = fifo_list td s d) ∧
      (rohie_dispatch_requests td now).1.starved = td.starved) := by
  have key : (rohie_dispatch_requests td now).2 = none →
      (dispatch_expired_phase td now).2 = none ∧
      rohie_choose_request td (dispatch_data_dir td) = none := by
    intro h
    cases h1 : (dispatch_expired_phase td now).2 with
    | some rq =>
      rw [(rohie_dispatch_requests_expired td now rq h1).1] at h
      simp at h
    | none =>
      rw [(rohie_dispatch_requests_normal td now h1).1] at h
      exact ⟨rfl, h⟩
  constructor
  · constructor
    · intro h
      exact (rohie_choose_request_eq_none_iff td _).1 (key h).2
    · intro h
      have h1 : (dispatch_expired_phase td now).2 = none := by
        by_cases hb : td.batched > to_uint td.fifo_batch
        · rw [(dispatch_expired_phase_of_gt td now hb).1]
          exact rohie_choose_expired_request_of_empty td now h
        · rw [dispatch_expired_phase_of_le td now hb]
      rw [(rohie_dispatch_requests_normal td now h1).1]
      exact (rohie_choose_request_eq_none_iff td _).2 h
  · intro h
    obtain ⟨h1, h2⟩ := key h
    have hst := (rohie_dispatch_requests_normal td now h1).2
    rw [h2] at hst
    simp only at hst
    rw [hst]
    exact ⟨fifo_list_expired_phase td now, (fields_expired_phase td now).1⟩

/-! ## Construction (C14) -/

/-- C14, evaluated on the code: `rohie_init_queue` assigns neither `starved` nor
`writes_starved`, so a scheduler constructed on memory that holds 7 and -3 there
starts with `starved = 7` and `writes_starved = -3` instead of 0 and 1, and differs
from one constructed on other memory; the lists, `batched`, the four expiry times
and `fifo_batch` have the values of the claim. -/
theorem rohie_init_queue_unassigned_example :
    ex_garbage.starved = 7 ∧ ex_garbage.writes_starved = -3 ∧
    ex_garbage.starved ≠ 0 ∧ ex_garbage.writes_starved ≠ 1 ∧
    ex_garbage ≠ rohie_init_queue 100 0 1 ∧
    (∀ s d, fifo_list ex_garbage s d = []) ∧ ex_garbage.batched = 0 ∧
    (∀ d, fifo_expire ex_garbage SYNC d = 1 * 100 ∧ fifo_expire ex_garbage ASYNC d = 2 * 100) ∧
    ex_garbage.fifo_batch = 1 := by
  decide

/-- The fields `rohie_init_queue` does assign. -/
theorem rohie_init_queue_assigned (HZ : Int) (starved0 : Nat) (writes_starved0 : Int) :
    (∀ s d, fifo_list (rohie_init_queue HZ starved0 writes_starved0) s d = []) ∧
    (rohie_init_queue HZ starved0 writes_starved0).batched = 0 ∧
    (∀ d, fifo_expire (rohie_init_queue HZ starved0 writes_starved0) SYNC d = 1 * HZ ∧
      fifo_expire (rohie_init_queue HZ starved0 writes_starved0) ASYNC d = 2 * HZ) ∧
    (rohie_init_queue HZ starved0 writes_starved0).fifo_batch = 1 := by
  refine ⟨?_, rfl, ?_, rfl⟩
  · intro s d; cases s <;> cases d <;> rfl
  · intro d; cases d <;> exact ⟨rfl, rfl⟩

/-! ## Teardown (C18) -/

/-- C18: `rohie_exit_queue` frees the control block exactly when all four lists are
empty; when one of them is non-empty a `BUG_ON` fires. -/
theorem rohie_exit_queue_iff (td : rohie_data) :
    (rohie_exit_queue td = some () ↔
      fifo_list td SYNC READ = [] ∧ fifo_list td SYNC WRITE = [] ∧
      fifo_list td ASYNC READ = [] ∧ fifo_list td ASYNC WRITE = []) ∧
    ((fifo_list td SYNC READ ≠ [] ∨ fifo_list td SYNC WRITE ≠ [] ∨
      fifo_list td ASYNC READ ≠ [] ∨ fifo_list td ASYNC WRITE ≠ []) →
      rohie_exit_queue td = none) := by
  unfold rohie_exit_queue BUG_ON
  cases h1 : fifo_list td SYNC READ <;> cases h2 : fifo_list td SYNC WRITE <;>
    cases h3 : fifo_list td ASYNC READ <;> cases h4 : fifo_list td ASYNC WRITE <;>
    simp [bind, pure]

/-! ## Deadline given by enqueue (C15) -/

theorem fields_add_request (td : rohie_data) (rq : request) (jiffies : Int) :
    (rohie_add_request td rq jiffies).batched = td.batched ∧
    (rohie_add_request td rq jiffies).starved = td.starved ∧
    (rohie_add_request td rq jiffies).fifo_batch = td.fifo_batch ∧
    (rohie_add_request td rq jiffies).writes_starved = td.writes_starved ∧
    ∀ s d, fifo_expire (rohie_add_request td rq jiffies) s d = fifo_expire td s d := by
  unfold rohie_add_request set_fifo_list
  cases rq.sync <;> cases rq.data_dir <;> refine ⟨rfl, rfl, rfl, rfl, ?_⟩ <;>
    intro s d <;> cases s <;> cases d <;> rfl

/-- The queued requests after an enqueue: the new request is inserted in front of its
list, in the concatenation of the four lists. -/
theorem all_rqs_add_request (td : rohie_data) (rq : request) (jiffies : Int) :
    ∃ l1 l2, all_rqs td = l1 ++ l2 ∧
      all_rqs (rohie_add_request td rq jiffies) =
        l1 ++
          { rq with fifo_time := to_ulong (jiffies + fifo_expire td rq.sync rq.data_dir) } ::
            l2 := by
  unfold all_rqs
  simp only [fifo_list_add_request]
  cases hs : rq.sync <;> cases hd : rq.data_dir
  · exact ⟨fifo_list td ASYNC WRITE, fifo_list td ASYNC READ ++ fifo_list td SYNC WRITE ++
      fifo_list td SYNC READ, by simp, by simp⟩
  · exact ⟨[], fifo_list td ASYNC WRITE ++ fifo_list td ASYNC READ ++ fifo_list td SYNC WRITE ++
      fifo_list td SYNC READ, by simp, by simp⟩
  · exact ⟨fifo_list td ASYNC WRITE ++ fifo_list td ASYNC READ ++ fifo_list td SYNC WRITE,
      fifo_list td SYNC READ, by simp, by simp⟩
  · exact ⟨fifo_list td ASYNC WRITE ++ fifo_list td ASYNC READ,
      fifo_list td SYNC WRITE ++ fifo_list td SYNC READ, by simp, by simp⟩

theorem find_insert_other (i : Nat) (x : request) (l1 l2 : List request) (h : i ≠ x.id) :
    (l1 ++ x :: l2).find? (fun r => r.id == i) = (l1 ++ l2).find? (fun r => r.id == i) := by
  have e : (x.id == i) = false := by
    simp only [beq_eq_false_iff_ne]; exact fun e => h e.symm
  simp only [List.find?_append, List.find?_cons, e]

theorem find_insert_self (x : request) (l1 l2 : List request)
    (h : (l1 ++ l2).find? (fun r => r.id == x.id) = none) :
    (l1 ++ x :: l2).find? (fun r => r.id == x.id) = some x := by
  rw [List.find?_append] at h ⊢
  cases h1 : l1.find? (fun r => r.id == x.id) with
  | some a => rw [h1] at h; simp at h
  | none => simp [List.find?_cons]

/-- An `unsigned long` sum whose exact value fits the type is that value. -/
theorem to_ulong_of_fits (x : Int) (h0 : 0 ≤ x) (h1 : x < 2 ^ 64) : to_ulong x = x := by
  unfold to_ulong ULONG_MOD
  exact Int.emod_eq_of_lt h0 (by simpa using h1)

/-- C15 fails as stated: a Sync-Read request added to a fresh scheduler (`HZ = 100`,
expiry 100) at the clock value `2 ^ 64 - 50` gets the deadline 50, because the sum is
computed in `unsigned long`, and not the deadline `now + 100`. -/
theorem rohie_add_request_wrap_example :
    fifo_expire ex_fresh SYNC READ = 100 ∧
    fifo_list (rohie_add_request ex_fresh ⟨1, SYNC, READ, 0⟩ 18446744073709551566) SYNC READ =
      [⟨1, SYNC, READ, 50⟩] ∧
    (50 : Int) ≠ 18446744073709551566 + fifo_expire ex_fresh SYNC READ := by
  decide

/-- C15, amended: after `rohie_add_request` at clock `now` the request stands in its list
with the deadline `now + fifo_expire[sync][data_dir]` reduced modulo `2 ^ 64`, which is
`now + fifo_expire[sync][data_dir]` itself whenever that sum fits an `unsigned long`;
with the tunables of the construction the expiry is `1 * HZ` for a synchronous and
`2 * HZ` for an asynchronous request; the entries already queued are the same entries
with the same deadlines; `batched`, `starved` and the tunables are unchanged. -/
theorem rohie_add_request_deadline (td : rohie_data) (rq : request) (now : Int) :
    fifo_list (rohie_add_request td rq now) rq.sync rq.data_dir =
      { rq with fifo_time := (now + fifo_expire td rq.sync rq.data_dir) % 2 ^ 64 } ::
        fifo_list td rq.sync rq.data_dir ∧
    (0 ≤ now + fifo_expire td rq.sync rq.data_dir →
      now + fifo_expire td rq.sync rq.data_dir < 2 ^ 64 →
      fifo_list (rohie_add_request td rq now) rq.sync rq.data_dir =
        { rq with fifo_time := now + fifo_expire td rq.sync rq.data_dir } ::
          fifo_list td rq.sync rq.data_dir) ∧
    (∀ s d, ¬ (s = rq.sync ∧ d = rq.data_dir) →
      fifo_list (rohie_add_request td rq now) s d = fifo_list td s d) ∧
    (find_rq td rq.id = none → find_rq (rohie_add_request td rq now) rq.id =
      some { rq with fifo_time := (now + fifo_expire td rq.sync rq.data_dir) % 2 ^ 64 }) ∧
    (∀ id, id ≠ rq.id → find_rq (rohie_add_request td rq now) id = find_rq td id) ∧
    (∀ HZ starved0 writes_starved0 d,
      fifo_expire (rohie_init_queue HZ starved0 writes_starved0) SYNC d = 1 * HZ ∧
      fifo_expire (rohie_init_queue HZ starved0 writes_starved0) ASYNC d = 2 * HZ) ∧
    (rohie_add_request td rq now).batched = td.batched ∧
    (rohie_add_request td rq now).starved = td.starved ∧
    (rohie_add_request td rq now).fifo_batch = td.fifo_batch ∧
    (rohie_add_request td rq now).writes_starved = td.writes_starved ∧
    ∀ s d, fifo_expire (rohie_add_request td rq now) s d = fifo_expire td s d := by
  obtain ⟨l1, l2, e1, e2⟩ := all_rqs_add_request td rq now
  have hmod : ∀ x : Int, to_ulong x = x % 2 ^ 64 := fun x => rfl
  have hhead : fifo_list (rohie_add_request td rq now) rq.sync rq.data_dir =
      { rq with fifo_time := to_ulong (now + fifo_expire td rq.sync rq.data_dir) } ::
        fifo_list td rq.sync rq.data_dir := by
    rw [fifo_list_add_request]; simp
  refine ⟨?_, ?_, ?_, ?_, ?_, ?_, fields_add_request td rq now⟩
  · rw [hhead, hmod]
  · intro h0 h1
    rw [hhead, to_ulong_of_fits _ h0 h1]
  · intro s d h; rw [fifo_list_add_request, if_neg h]
  · intro h
    unfold find_rq at h ⊢
    rw [e1] at h
    rw [e2, ← hmod]
    exact find_insert_self
      { rq with fifo_time := to_ulong (now + fifo_expire td rq.sync rq.data_dir) } l1 l2 h
  · intro id h
    unfold find_rq
    rw [e1, e2]
    exact find_insert_other id _ l1 l2 h
  · intro HZ s0 w0 d
    cases d <;> exact ⟨rfl, rfl⟩

/-! ## The batch counter (C19, C16) -/

theorem tunables_merged (td : rohie_data) (rq next : Nat) :
    (rohie_merged_requests td rq next).fifo_batch = td.fifo_batch ∧
    (rohie_merged_requests td rq next).writes_starved = td.writes_starved ∧
    ∀ s d, fifo_expire (rohie_merged_requests td rq next) s d = fifo_expire td s d := by
  unfold rohie_merged_requests rq_fifo_clear list_move
  cases find_rq td rq <;> cases find_rq td next <;> simp only [] <;>
    try exact ⟨rfl, rfl, fun s d => by cases s <;> cases d <;> rfl⟩
  split <;> exact ⟨rfl, rfl, fun s d => by cases s <;> cases d <;> rfl⟩

/-- The value of `batched` after a dispatch. -/
theorem batched_dispatch_requests (td : rohie_data) (now : Int) :
    (rohie_dispatch_requests td now).1.batched =
      if (rohie_dispatch_requests td now).2.isSome then
        ((if td.batched > to_uint td.fifo_batch then 0 else td.batched) + 1) % UINT_MOD
      else (if td.batched > to_uint td.fifo_batch then 0 else td.batched) := by
  cases hr : (rohie_dispatch_requests td now).2 with
  | some rq =>
    rw [(rohie_dispatch_requests_some td now rq hr).1, (fields_dispatch_request _ rq).1,
      batched_expired_phase]
    simp
  | none =>
    have h1 : (dispatch_expired_phase td now).2 = none := by
      cases h1 : (dispatch_expired_phase td now).2 with
      | some rq =>
        rw [(rohie_dispatch_requests_expired td now rq h1).1] at hr
        simp at hr
      | none => rfl
    obtain ⟨r1, r2⟩ := rohie_dispatch_requests_normal td now h1
    rw [hr] at r1
    rw [← r1] at r2
    simp only at r2
    rw [r2, batched_expired_phase]
    simp

theorem fifo_batch_dispatch_requests (td : rohie_data) (now : Int) :
    (rohie_dispatch_requests td now).1.fifo_batch = td.fifo_batch := by
  cases hr : (rohie_dispatch_requests td now).2 with
  | some rq =>
    rw [(rohie_dispatch_requests_some td now rq hr).1, (fields_dispatch_request _ rq).2.2.1,
      (fields_expired_phase td now).2.1]
  | none =>
    have h1 : (dispatch_expired_phase td now).2 = none := by
      cases h1 : (dispatch_expired_phase td now).2 with
      | some rq =>
        rw [(rohie_dispatch_requests_expired td now rq h1).1] at hr
        simp at hr
      | none => rfl
    obtain ⟨r1, r2⟩ := rohie_dispatch_requests_normal td now h1
    rw [hr] at r1
    rw [← r1] at r2
    simp only at r2
    rw [r2, (fields_expired_phase td now).2.1]

theorem fifo_batch_apply_op (td : rohie_data) (op : sched_op) :
    (apply_op td op).fifo_batch = td.fifo_batch := by
  cases op with
  | enqueue rq j => exact (fields_add_request td rq j).2.2.1
  | dispatch j => exact fifo_batch_dispatch_requests td j
  | merge rq next => exact (tunables_merged td rq next).1

theorem batched_dispatch_le (td : rohie_data) (now : Int) (h0 : 0 ≤ td.fifo_batch)
    (h1 : td.fifo_batch < 2 ^ 31) :
    ((rohie_dispatch_requests td now).1.batched : Int) ≤ td.fifo_batch + 1 := by
  have hu := to_uint_of_nonneg td.fifo_batch h0 (by omega)
  rw [batched_dispatch_requests]
  have hm0 : (0 + 1) % UINT_MOD ≤ 0 + 1 := Nat.mod_le _ _
  have hmb : (td.batched + 1) % UINT_MOD ≤ td.batched + 1 := Nat.mod_le _ _
  split <;> split <;> omega

theorem batched_apply_op_le (td : rohie_data) (op : sched_op) (h0 : 0 ≤ td.fifo_batch)
    (h1 : td.fifo_batch < 2 ^ 31) (hb : (td.batched : Int) ≤ td.fifo_batch + 1) :
    ((apply_op td op).batched : Int) ≤ td.fifo_batch + 1 := by
  cases op with
  | enqueue rq j => simp only [apply_op]; rw [(fields_add_request td rq j).1]; exact hb
  | dispatch j => exact batched_dispatch_le td j h0 h1
  | merge rq next => simp only [apply_op]; rw [(fields_merged td rq next).1]; exact hb

theorem batched_run_ops_le (ops : List sched_op) :
    ∀ td : rohie_data, 0 ≤ td.fifo_batch → td.fifo_batch < 2 ^ 31 →
      (td.batched : Int) ≤ td.fifo_batch + 1 →
      ((run_ops td ops).batched : Int) ≤ td.fifo_batch + 1 := by
  induction ops with
  | nil => intro td _ _ hb; exact hb
  | cons op ops ih =>
    intro td h0 h1 hb
    have hf := fifo_batch_apply_op td op
    have := ih (apply_op td op) (by rw [hf]; exact h0) (by rw [hf]; exact h1)
      (by rw [hf]; exact batched_apply_op_le td op h0 h1 hb)
    rw [hf] at this
    exact this

/-- C19: with `0 ≤ fifo_batch`, a dispatch leaves `batched ≤ fifo_batch + 1` (whether or
not the bound held before); enqueue and merge leave `batched` unchanged (the neighbour
queries yield no state); so the bound holds after every sequence of calls that starts
with the bound, in particular with `batched = 0`; and after a dispatch that performed
the expired scan `batched` is at most 1. -/
theorem batched_le_fifo_batch_succ (td : rohie_data) (h0 : 0 ≤ td.fifo_batch)
    (h1 : td.fifo_batch < 2 ^ 31) :
    (∀ now, (td.batched : Int) ≤ td.fifo_batch + 1 →
      ((rohie_dispatch_requests td now).1.batched : Int) ≤ td.fifo_batch + 1) ∧
    (∀ now, ((rohie_dispatch_requests td now).1.batched : Int) ≤ td.fifo_batch + 1) ∧
    (∀ rq now, (rohie_add_request td rq now).batched = td.batched) ∧
    (∀ rq next, (rohie_merged_requests td rq next).batched = td.batched) ∧
    (∀ ops, (td.batched : Int) ≤ td.fifo_batch + 1 →
      ((run_ops td ops).batched : Int) ≤ td.fifo_batch + 1) ∧
    (∀ ops, td.batched = 0 → ((run_ops td ops).batched : Int) ≤ td.fifo_batch + 1) ∧
    (∀ now, td.batched > to_uint td.fifo_batch →
      (rohie_dispatch_requests td now).1.batched ≤ 1) := by
  refine ⟨fun now _ => batched_dispatch_le td now h0 h1, fun now => batched_dispatch_le td now h0 h1,
    fun rq now => (fields_add_request td rq now).1, fun rq next => (fields_merged td rq next).1,
    fun ops hb => batched_run_ops_le ops td h0 h1 hb, ?_, ?_⟩
  · intro ops hb
    exact batched_run_ops_le ops td h0 h1 (by rw [hb]; omega)
  · intro now hgt
    rw [batched_dispatch_requests, if_pos hgt]
    split
    · decide
    · omega

/-- The C19 bound at a concrete state: a fresh scheduler and the calls `ex_ops`. -/
theorem batched_le_fifo_batch_succ_witness :
    0 ≤ ex_fresh.fifo_batch ∧ ex_fresh.fifo_batch < 2 ^ 31 ∧ ex_fresh.batched = 0 ∧
    ((run_ops ex_fresh ex_ops).batched : Int) ≤ ex_fresh.fifo_batch + 1 :=
  ⟨by decide, by decide, by decide,
    (batched_le_fifo_batch_succ ex_fresh (by decide) (by decide)).2.2.2.2.2.1 ex_ops
      (by decide)⟩

theorem check_run_cons (td : rohie_data) (t : Int) (ts : List Int) :
    check_run td (t :: ts) =
      decide (td.batched > to_uint td.fifo_batch) ::
        check_run (rohie_dispatch_requests td t).1 ts :=
  rfl

/-- The expired scan alternates once `batched` is 1 or 2: with `fifo_batch = 1` and
every call returning a request, call `i` scans exactly when `i + batched` is even. -/
theorem check_run_alternates (ts : List Int) :
    ∀ (td : rohie_data) (b : Nat), td.fifo_batch = 1 → td.batched = b → (b = 1 ∨ b = 2) →
      (∀ r ∈ (dispatch_run td ts).2, r ≠ none) →
      ∀ i, i < ts.length → (check_run td ts)[i]? = some (decide ((i + b) % 2 = 0)) := by
  induction ts with
  | nil => intro td b _ _ _ _ i hi; simp at hi
  | cons t ts ih =>
    intro td b hf hb hb12 hall i hi
    rw [dispatch_run_cons] at hall
    have hsome : (rohie_dispatch_requests td t).2.isSome = true := by
      have := hall (rohie_dispatch_requests td t).2 (by simp)
      cases h : (rohie_dispatch_requests td t).2 with
      | none => exact absurd h this
      | some _ => rfl
    have hu : to_uint td.fifo_batch = 1 := by rw [hf]; decide
    have hnext := batched_dispatch_requests td t
    rw [hsome, if_pos rfl, hu, hb] at hnext
    have hf2 := fifo_batch_dispatch_requests td t
    rw [check_run_cons, hu, hb]
    cases i with
    | zero =>
      rcases hb12 with rfl | rfl <;> simp
    | succ j =>
      simp only [List.getElem?_cons_succ]
      have hj : j < ts.length := by simpa using hi
      have hall2 : ∀ r ∈ (dispatch_run (rohie_dispatch_requests td t).1 ts).2, r ≠ none :=
        fun r hr => hall r (by simp [hr])
      rcases hb12 with rfl | rfl
      · have hn2 : (rohie_dispatch_requests td t).1.batched = 2 := by
          rw [hnext]; decide
        refine (ih _ 2 (by rw [hf2, hf]) hn2 (Or.inr rfl) hall2 j hj).trans ?_
        simp only [Option.some.injEq, decide_eq_decide]
      · have hn1 : (rohie_dispatch_requests td t).1.batched = 1 := by
          rw [hnext]; decide
        refine (ih _ 1 (by rw [hf2, hf]) hn1 (Or.inl rfl) hall2 j hj).trans ?_
        simp only [Option.some.injEq, decide_eq_decide]
        omega

/-- C16 fails as stated: on a fresh scheduler with `fifo_batch = 1` and four requests
queued, the first two dispatch calls each return a request and neither of them
performs the expired scan; the scan is performed by the third call. -/
theorem check_run_first_calls_example :
    ex_reads_and_write.fifo_batch = 1 ∧ ex_reads_and_write.batched = 0 ∧
    (∀ r ∈ (dispatch_run ex_reads_and_write [0, 0, 0, 0]).2, r ≠ none) ∧
    check_run ex_reads_and_write [0, 0, 0, 0] = [false, false, true, false] ∧
    ¬ ((check_run ex_reads_and_write [0, 0, 0, 0])[0]? ≠
      (check_run ex_reads_and_write [0, 0, 0, 0])[1]?) := by
  decide

/-- C16, amended: with `fifo_batch = 1`, in a run of dispatch calls that starts with
`batched = 0` (as on a fresh scheduler) and in which every call returns a request, the
call number `i` (counted from 0) performs the expired scan exactly when `i` is even and
at least 2, that is the third, fifth, seventh call do; the first two calls do not, and
from the second call on, of two consecutive calls exactly one performs the scan. -/
theorem check_run_cadence (td : rohie_data) (ts : List Int) (hf : td.fifo_batch = 1)
    (hb : td.batched = 0) (hall : ∀ r ∈ (dispatch_run td ts).2, r ≠ none) :
    (∀ i, i < ts.length → (check_run td ts)[i]? = some (decide (2 ≤ i ∧ i % 2 = 0))) ∧
    (∀ i c1 c2, 1 ≤ i → (check_run td ts)[i]? = some c1 →
      (check_run td ts)[i + 1]? = some c2 → c1 ≠ c2) := by
  have main : ∀ i, i < ts.length →
      (check_run td ts)[i]? = some (decide (2 ≤ i ∧ i % 2 = 0)) := by
    intro i hi
    cases ts with
    | nil => simp at hi
    | cons t ts =>
      rw [dispatch_run_cons] at hall
      have hsome : (rohie_dispatch_requests td t).2.isSome = true := by
        have := hall (rohie_dispatch_requests td t).2 (by simp)
        cases h : (rohie_dispatch_requests td t).2 with
        | none => exact absurd h this
        | some _ => rfl
      have hu : to_uint td.fifo_batch = 1 := by rw [hf]; decide
      have hnext := batched_dispatch_requests td t
      rw [hsome, if_pos rfl, hu, hb] at hnext
      have hn1 : (rohie_dispatch_requests td t).1.batched = 1 := by
        rw [hnext]; decide
      rw [check_run_cons, hu, hb]
      cases i with
      | zero => simp
      | succ j =>
        simp only [List.getElem?_cons_succ]
        have hj : j < ts.length := by simpa using hi
        refine (check_run_alternates ts _ 1 (by rw [fifo_batch_dispatch_requests, hf]) hn1
          (Or.inl rfl) (fun r hr => hall r (by simp [hr])) j hj).trans ?_
        simp only [Option.some.injEq, decide_eq_decide]
        omega
  refine ⟨main, ?_⟩
  intro i c1 c2 hi h1 h2
  have hlen : (check_run td ts).length = ts.length := by
    clear hall main h1 h2 hb hf
    induction ts generalizing td with
    | nil => rfl
    | cons t ts ih => rw [check_run_cons, List.length_cons, ih, List.length_cons]
  have hi2 : i + 1 < ts.length := by
    rw [← hlen]
    by_contra hc
    rw [List.getElem?_eq_none (by omega)] at h2
    simp at h2
  rw [main i (by omega)] at h1
  rw [main (i + 1) hi2] at h2
  simp only [Option.some.injEq] at h1 h2
  subst h1 h2
  simp only [ne_eq, decide_eq_decide]
  omega

/-- The amended C16 statement at a concrete state: a fresh scheduler with four
requests queued, four calls. -/
theorem check_run_cadence_witness :
    ex_reads_and_write.fifo_batch = 1 ∧ ex_reads_and_write.batched = 0 ∧
    (∀ r ∈ (dispatch_run ex_reads_and_write [0, 0, 0, 0]).2, r ≠ none) ∧
    (check_run ex_reads_and_write [0, 0, 0, 0])[2]? = some (decide (2 ≤ 2 ∧ 2 % 2 = 0)) :=
  ⟨by decide, by decide, by decide,
    (check_run_cadence ex_reads_and_write [0, 0, 0, 0] (by decide) (by decide)
      (by decide)).1 2 (by decide)⟩

/-! ## The normal path ignores deadlines (C17) -/

theorem prev_in_none (id : Nat) (l : List request) (h : ∀ x ∈ l, x.id ≠ id) :
    ∀ p, prev_in id p l = none := by
  induction l with
  | nil => intro p; rfl
  | cons x l ih =>
    intro p
    have hx : x.id ≠ id := h x (by simp)
    simp only [prev_in, if_neg hx]
    exact ih (fun y hy => h y (by simp [hy])) _

theorem next_in_none (hd : list_node) (id : Nat) (l : List request)
    (h : ∀ x ∈ l, x.id ≠ id) : next_in hd id l = none := by
  induction l with
  | nil => rfl
  | cons x l ih =>
    have hx : x.id ≠ id := h x (by simp)
    simp only [next_in, if_neg hx]
    exact ih (fun y hy => h y (by simp [hy]))

theorem prev_in_append (rq : request) (post : List request) (pre : List request)
    (h : ∀ x ∈ pre, x.id ≠ rq.id) :
    ∀ p, prev_in rq.id p (pre ++ rq :: post) =
      some ((pre.getLast?.map list_node.entry).getD p) := by
  induction pre with
  | nil => intro p; simp [prev_in]
  | cons x pre ih =>
    intro p
    have hx : x.id ≠ rq.id := h x (by simp)
    rw [List.cons_append, prev_in, if_neg hx,
      ih (fun y hy => h y (by simp [hy])), List.getLast?_cons]
    cases pre.getLast? <;> rfl

theorem next_in_append (hd : list_node) (rq : request) (post : List request)
    (pre : List request) (h : ∀ x ∈ pre, x.id ≠ rq.id) :
    next_in hd rq.id (pre ++ rq :: post) =
      some ((post.head?.map list_node.entry).getD hd) := by
  induction pre with
  | nil => simp [next_in]
  | cons x pre ih =>
    have hx : x.id ≠ rq.id := h x (by simp)
    rw [List.cons_append, next_in, if_neg hx]
    exact ih (fun y hy => h y (by simp [hy]))

/-- In a list without repeated nodes the entries before and after an entry do not carry
its identity. -/
theorem nodup_split (pre post : List request) (rq : request)
    (h : ((pre ++ rq :: post).map request.id).Nodup) :
    (∀ x ∈ pre, x.id ≠ rq.id) ∧ (∀ x ∈ post, x.id ≠ rq.id) := by
  rw [List.map_append, List.map_cons, List.nodup_append] at h
  obtain ⟨-, hnp, hdis⟩ := h
  constructor
  · intro x hx he
    exact hdis (List.mem_map_of_mem request.id hx) (by rw [he]; simp)
  · intro x hx he
    apply (List.nodup_cons.1 hnp).1
    rw [← he]
    exact List.mem_map_of_mem request.id hx

/-- The `prev` and `next` fields of a queued node. -/
theorem queuelist_fields (td : rohie_data) (rq : request) (s d : Bool)
    (pre post : List request) (hd : nodes_distinct td)
    (hq : fifo_list td s d = pre ++ rq :: post) :
    queuelist_prev td rq = (pre.getLast?.map list_node.entry).getD (list_node.head s d) ∧
    queuelist_next td rq = (post.head?.map list_node.entry).getD (list_node.head s d) := by
  have hn := nodes_distinct_list td hd s d
  rw [hq] at hn
  have hpre := (nodup_split pre post rq hn).1
  have hother : ∀ s1 d1, ¬ (s1 = s ∧ d1 = d) → ∀ x ∈ fifo_list td s1 d1, x.id ≠ rq.id := by
    intro s1 d1 hne x hx he
    exact nodes_distinct_disjoint td hd s d s1 d1 hne rq x (by rw [hq]; simp) hx he.symm
  have P := fun p => prev_in_append rq post pre hpre p
  have N := fun h => next_in_append h rq post pre hpre
  have P0 := fun s1 d1 hne p => prev_in_none rq.id (fifo_list td s1 d1) (hother s1 d1 hne) p
  have N0 := fun s1 d1 hne h => next_in_none h rq.id (fifo_list td s1 d1) (hother s1 d1 hne)
  unfold queuelist_prev queuelist_next
  cases s <;> cases d
  · rw [P0 ASYNC WRITE (by decide), N0 ASYNC WRITE (by decide), hq, P, N]
    exact ⟨rfl, rfl⟩
  · rw [hq, P, N]
    exact ⟨rfl, rfl⟩
  · rw [P0 ASYNC WRITE (by decide), N0 ASYNC WRITE (by decide), P0 ASYNC READ (by decide),
      N0 ASYNC READ (by decide), P0 SYNC WRITE (by decide), N0 SYNC WRITE (by decide), hq, P, N]
    exact ⟨rfl, rfl⟩
  · rw [P0 ASYNC WRITE (by decide), N0 ASYNC WRITE (by decide), P0 ASYNC READ (by decide),
      N0 ASYNC READ (by decide), hq, P, N]
    exact ⟨rfl, rfl⟩

/-- The two neighbour queries on a request queued in the list of its own flags. -/
theorem neighbours_of_split (td : rohie_data) (rq : request) (pre post : List request)
    (hd : nodes_distinct td) (hq : fifo_list td rq.sync rq.data_dir = pre ++ rq :: post) :
    rohie_former_request td rq = pre.getLast?.map list_node.entry ∧
    rohie_latter_request td rq = post.head?.map list_node.entry := by
  obtain ⟨h1, h2⟩ := queuelist_fields td rq rq.sync rq.data_dir pre post hd hq
  unfold rohie_former_request rohie_latter_request
  rw [h1, h2]
  constructor
  · cases pre.getLast? <;> simp
  · cases post.head? <;> simp

/-- C13: in a state where every node is linked once, for a request queued in the list
of its own flags as `pre ++ rq :: post`, `rohie_former_request` returns the entry right
before it (the last of `pre`) and `NULL` exactly when it is the first entry, and
`rohie_latter_request` returns the entry right after it (the first of `post`) and `NULL`
exactly when it is the last entry; for two requests of that list the latter neighbour
of the first is the second exactly when the former neighbour of the second is the
first. Both queries are pure: they yield no state. -/
theorem rohie_neighbour_requests (td : rohie_data) (rq : request) (pre post : List request)
    (hd : nodes_distinct td) (hq : fifo_list td rq.sync rq.data_dir = pre ++ rq :: post) :
    rohie_former_request td rq = pre.getLast?.map list_node.entry ∧
    rohie_latter_request td rq = post.head?.map list_node.entry ∧
    (rohie_former_request td rq = none ↔ pre = []) ∧
    (rohie_latter_request td rq = none ↔ post = []) ∧
    (∀ b, b ∈ fifo_list td rq.sync rq.data_dir → b.sync = rq.sync →
      b.data_dir = rq.data_dir →
      (rohie_latter_request td rq = some (list_node.entry b) ↔
        rohie_former_request td b = some (list_node.entry rq))) := by
  obtain ⟨f1, l1⟩ := neighbours_of_split td rq pre post hd hq
  refine ⟨f1, l1, ?_, ?_, ?_⟩
  · rw [f1]
    cases h : pre.getLast? with
    | none => simp [List.getLast?_eq_none_iff.1 h]
    | some y =>
      constructor
      · intro h2; simp at h2
      · intro hp; rw [hp] at h; simp at h
  · rw [l1]
    cases post <;> simp
  · intro b hb hbs hbd
    obtain ⟨pre2, post2, hq2⟩ := List.append_of_mem hb
    have hq2' : fifo_list td b.sync b.data_dir = pre2 ++ b :: post2 := by
      rw [hbs, hbd]; exact hq2
    obtain ⟨f2, -⟩ := neighbours_of_split td b pre2 post2 hd hq2'
    rw [l1, f2]
    have hn := nodes_distinct_list td hd rq.sync rq.data_dir
    have hn1 := hn
    rw [hq] at hn1
    have hn2 := hn
    rw [hq2] at hn2
    obtain ⟨a1, a2⟩ := nodup_split pre post rq hn1
    obtain ⟨b1, b2⟩ := nodup_split pre2 post2 b hn2
    have nm : ∀ (l : List request) (x : request), (∀ y ∈ l, y.id ≠ x.id) → x ∉ l :=
      fun l x h hx => h x hx rfl
    have heq : pre ++ rq :: post = pre2 ++ b :: post2 := by rw [← hq, hq2]
    constructor
    · intro h
      have hp : post.head? = some b := by
        cases hh : post.head? with
        | none => rw [hh] at h; simp at h
        | some y => rw [hh] at h; simp at h; rw [h]
      obtain ⟨post1, rfl⟩ := List.head?_eq_some_iff.1 hp
      have e : (pre ++ [rq]) ++ b :: post1 = pre2 ++ b :: post2 := by
        rw [← heq]; simp
      have hbn : b ∉ pre ++ [rq] := by
        intro hm
        rcases List.mem_append.1 hm with hm | hm
        · have hdup := hn1
          rw [List.map_append, List.nodup_append] at hdup
          exact hdup.2.2 (List.mem_map_of_mem request.id hm)
            (List.mem_map_of_mem request.id (by simp))
        · simp only [List.mem_singleton] at hm
          exact a2 b (by simp) (by rw [hm])
      have hbn2 : b ∉ post1 := by
        intro hm
        have hdup := (List.nodup_cons.1 ((List.nodup_append.1
          (by rw [List.map_append, List.map_cons] at hn1; exact hn1)).2.1)).2
        rw [List.map_cons, List.nodup_cons] at hdup
        exact hdup.1 (List.mem_map_of_mem request.id hm)
      have := (List.append_cons_inj_of_not_mem hbn hbn2).1 e
      rw [← this.1, List.getLast?_concat]
      rfl
    · intro h
      have hp : pre2.getLast? = some rq := by
        cases hh : pre2.getLast? with
        | none => rw [hh] at h; simp at h
        | some y => rw [hh] at h; simp at h; rw [h]
      obtain ⟨pre1, rfl⟩ := List.getLast?_eq_some_iff.1 hp
      have e : pre ++ rq :: post = pre1 ++ rq :: (b :: post2) := by
        rw [heq]; simp
      have := (List.append_cons_inj_of_not_mem (nm pre rq a1) (nm post rq a2)).1 e
      rw [this.2.2]
      rfl

/-- The C13 statement at a concrete state: the middle entry of a Sync-Read list of three
requests. -/
theorem rohie_neighbour_requests_witness :
    nodes_distinct ex_reads_and_write ∧
    fifo_list ex_reads_and_write SYNC READ =
      [⟨3, SYNC, READ, 100⟩] ++ ⟨2, SYNC, READ, 100⟩ :: [⟨1, SYNC, READ, 100⟩] ∧
    rohie_former_request ex_reads_and_write ⟨2, SYNC, READ, 100⟩ =
      some (list_node.entry ⟨3, SYNC, READ, 100⟩) ∧
    rohie_latter_request ex_reads_and_write ⟨2, SYNC, READ, 100⟩ =
      ([⟨1, SYNC, READ, 100⟩] : List request).head?.map list_node.entry :=
  ⟨by decide, by decide, by decide,
    (rohie_neighbour_requests ex_reads_and_write ⟨2, SYNC, READ, 100⟩ [⟨3, SYNC, READ, 100⟩]
      [⟨1, SYNC, READ, 100⟩] (by decide) (by decide)).2.1⟩

/-! ## Flags and lists (C20) -/

theorem tags_consistent_add_request (td : rohie_data) (rq : request) (now : Int)
    (h : tags_consistent td) : tags_consistent (rohie_add_request td rq now) := by
  intro s d x hx
  rw [fifo_list_add_request] at hx
  split at hx
  · rename_i hc
    simp only [List.mem_cons] at hx
    rcases hx with rfl | hx
    · exact ⟨hc.1.symm, hc.2.symm⟩
    · rw [hc.1, hc.2]; exact h _ _ x hx
  · exact h s d x hx

theorem fifo_list_dispatch_requests_subset (td : rohie_data) (now : Int) (s d : Bool)
    (x : request) (hx : x ∈ fifo_list (rohie_dispatch_requests td now).1 s d) :
    x ∈ fifo_list td s d := by
  cases hr : (rohie_dispatch_requests td now).2 with
  | some rq =>
    rw [(rohie_dispatch_requests_some td now rq hr).1,
      (fields_dispatch_request _ rq).2.2.2.2.2, fifo_list_expired_phase] at hx
    exact ((mem_list_del _ _ _).1 hx).1
  | none =>
    rw [((fifo_list_dispatch_requests_none td now hr)) s d] at hx
    exact hx

theorem tags_consistent_dispatch_requests (td : rohie_data) (now : Int)
    (h : tags_consistent td) : tags_consistent (rohie_dispatch_requests td now).1 :=
  fun s d x hx => h s d x (fifo_list_dispatch_requests_subset td now s d x hx)

/-- A merge keeps every request in the list of its flags when the two requests carry
the same flags, and also when the absorbed request does not have the earlier
deadline. -/
theorem tags_consistent_merged (td : rohie_data) (rq next : Nat) (r n : request)
    (hd : nodes_distinct td) (hr : find_rq td rq = some r) (hn : find_rq td next = some n)
    (hne : rq ≠ next) (h : tags_consistent td)
    (hc : (r.sync = n.sync ∧ r.data_dir = n.data_dir) ∨ r.fifo_time ≤ n.fifo_time) :
    tags_consistent (rohie_merged_requests td rq next) := by
  obtain ⟨hnm, hnid⟩ := find_rq_some td next n hn
  intro s d x hx
  by_cases ht : n.fifo_time < r.fifo_time
  · rcases hc with hc | hc
    · rw [fifo_list_merged_earlier td rq next r n hd hr hn hne ht, List.mem_map] at hx
      obtain ⟨y, hy, rfl⟩ := hx
      have hy1 := ((mem_list_del _ _ _).1 hy).1
      by_cases hyn : y.id = next
      · rw [if_pos hyn]
        have hya : y ∈ all_rqs td := (mem_all_rqs td y).2 ⟨s, d, hy1⟩
        have : y = n := List.inj_on_of_nodup_map hd hya hnm (by rw [hyn, hnid])
        have hn2 := h s d y hy1
        rw [this] at hn2
        exact ⟨hc.1.trans hn2.1, hc.2.trans hn2.2⟩
      · rw [if_neg hyn]; exact h s d y hy1
    · exact absurd ht (not_lt.2 hc)
  · rw [fifo_list_merged_not_earlier td rq next r n hr hn ht] at hx
    exact h s d x ((mem_list_del _ _ _).1 hx).1

/-- C20, evaluated on the code: a Sync-Write request (deadline 250) and an Async-Write
request (deadline 200) are queued, each in the list of its flags. Merging the second
into the first moves the Sync-Write request into the Async-Write list: the invariant is
lost, and `rohie_former_request` and `rohie_latter_request` on that request, now the only
entry of the Async-Write list, return `list_entry` of the list head instead of
`NULL`. -/
theorem merge_across_lists_example :
    tags_consistent ex_writes ∧ nodes_distinct ex_writes ∧
    find_rq ex_writes 1 = some ⟨1, SYNC, WRITE, 250⟩ ∧
    find_rq ex_writes 2 = some ⟨2, ASYNC, WRITE, 200⟩ ∧
    fifo_list (rohie_merged_requests ex_writes 1 2) ASYNC WRITE = [⟨1, SYNC, WRITE, 200⟩] ∧
    fifo_list (rohie_merged_requests ex_writes 1 2) SYNC WRITE = [] ∧
    ¬ tags_consistent (rohie_merged_requests ex_writes 1 2) ∧
    rohie_former_request (rohie_merged_requests ex_writes 1 2) ⟨1, SYNC, WRITE, 200⟩ =
      some (list_node.head ASYNC WRITE) ∧
    rohie_latter_request (rohie_merged_requests ex_writes 1 2) ⟨1, SYNC, WRITE, 200⟩ =
      some (list_node.head ASYNC WRITE) := by
  decide

/-! ## Partition of the requests (C11) -/

theorem find_rq_eq_none_iff (td : rohie_data) (id : Nat) :
    find_rq td id = none ↔ id ∉ queued_ids td := by
  unfold find_rq queued_ids
  rw [List.find?_eq_none]
  simp only [List.mem_map, not_exists, not_and, beq_iff_eq]

theorem find_rq_isSome_iff (td : rohie_data) (id : Nat) :
    (find_rq td id).isSome = true ↔ id ∈ queued_ids td := by
  cases h : find_rq td id with
  | none =>
    simp only [Option.isSome_none, Bool.false_eq_true, false_iff]
    exact (find_rq_eq_none_iff td id).1 h
  | some r =>
    simp only [Option.isSome_some, true_iff]
    obtain ⟨h1, h2⟩ := find_rq_some td id r h
    unfold queued_ids
    rw [← h2]
    exact List.mem_map_of_mem request.id h1

theorem queued_ids_add_request (td : rohie_data) (rq : request) (now : Int) :
    (queued_ids (rohie_add_request td rq now)).Perm (rq.id :: queued_ids td) := by
  obtain ⟨l1, l2, e1, e2⟩ := all_rqs_add_request td rq now
  unfold queued_ids
  rw [e1, e2, List.map_append, List.map_append, List.map_cons]
  exact List.perm_middle

theorem mem_ids_list_del (i j : Nat) (l : List request) :
    i ∈ (list_del j l).map request.id ↔ i ∈ l.map request.id ∧ i ≠ j := by
  simp only [List.mem_map, mem_list_del]
  constructor
  · rintro ⟨x, ⟨hx, hne⟩, rfl⟩
    exact ⟨⟨x, hx, rfl⟩, hne⟩
  · rintro ⟨⟨x, hx, rfl⟩, hne⟩
    exact ⟨x, ⟨hx, hne⟩, rfl⟩

/-- The queued requests after a dispatch. -/
theorem all_rqs_dispatch_requests (td : rohie_data) (now : Int) :
    all_rqs (rohie_dispatch_requests td now).1 =
      match (rohie_dispatch_requests td now).2 with
      | some rq => list_del rq.id (all_rqs td)
      | none => all_rqs td := by
  cases hr : (rohie_dispatch_requests td now).2 with
  | some rq =>
    simp only
    rw [(rohie_dispatch_requests_some td now rq hr).1, all_rqs_dispatch_request,
      all_rqs_expired_phase]
  | none =>
    simp only
    unfold all_rqs
    simp only [fifo_list_dispatch_requests_none td now hr]

/-- A merge of two distinct queued requests unlinks the absorbed one and nothing else,
and links no node twice. -/
theorem queued_ids_merged (td : rohie_data) (rq next : Nat) (r n : request)
    (hd : nodes_distinct td) (hr : find_rq td rq = some r) (hn : find_rq td next = some n)
    (hne : rq ≠ next) :
    nodes_distinct (rohie_merged_requests td rq next) ∧
    ∀ i, i ∈ queued_ids (rohie_merged_requests td rq next) ↔ i ∈ queued_ids td ∧ i ≠ next := by
  obtain ⟨hrm, hrid⟩ := find_rq_some td rq r hr
  obtain ⟨hnm, hnid⟩ := find_rq_some td next n hn
  by_cases ht : n.fifo_time < r.fifo_time
  · have e := all_rqs_merged_earlier td rq next r n hd hr hn hne ht
    have eid : queued_ids (rohie_merged_requests td rq next) =
        ((list_del rq (all_rqs td)).map request.id).map
          (fun i => if i = next then rq else i) := by
      unfold queued_ids
      rw [e, List.map_map, List.map_map]
      apply List.map_congr_left
      intro x _
      simp only [Function.comp_apply]
      by_cases hx : x.id = next
      · simp only [if_pos hx]; exact hrid
      · simp only [if_neg hx]
    constructor
    · unfold nodes_distinct
      show (queued_ids (rohie_merged_requests td rq next)).Nodup
      rw [eid]
      apply List.Nodup.map_on
      · intro a ha b hb hab
        have ha1 := ((mem_ids_list_del a rq _).1 ha).2
        have hb1 := ((mem_ids_list_del b rq _).1 hb).2
        by_cases h1 : a = next <;> by_cases h2 : b = next
        · rw [h1, h2]
        · rw [if_pos h1, if_neg h2] at hab; exact absurd hab.symm hb1
        · rw [if_neg h1, if_pos h2] at hab; exact absurd hab ha1
        · rw [if_neg h1, if_neg h2] at hab; exact hab
      · exact nodup_list_del rq _ hd
    · intro i
      rw [eid, List.mem_map]
      constructor
      · rintro ⟨a, ha, rfl⟩
        obtain ⟨ha0, ha1⟩ := (mem_ids_list_del a rq _).1 ha
        by_cases h1 : a = next
        · rw [if_pos h1]
          exact ⟨by unfold queued_ids; rw [← hrid]; exact List.mem_map_of_mem request.id hrm,
            hne⟩
        · rw [if_neg h1]; exact ⟨ha0, h1⟩
      · rintro ⟨hi, hin⟩
        by_cases h1 : i = rq
        · refine ⟨next, (mem_ids_list_del next rq _).2 ⟨?_, fun e => hne e.symm⟩, ?_⟩
          · rw [← hnid]; exact List.mem_map_of_mem request.id hnm
          · rw [if_pos rfl, h1]
        · exact ⟨i, (mem_ids_list_del i rq _).2 ⟨hi, h1⟩, by rw [if_neg hin]⟩
  · have e := all_rqs_merged_not_earlier td rq next r n hr hn ht
    constructor
    · unfold nodes_distinct
      rw [e]
      exact nodup_list_del next _ hd
    · intro i
      unfold queued_ids
      rw [e]
      exact mem_ids_list_del i next _

/-- What the bookkeeping and the lists have in common: no node is linked twice, the
live requests are the queued ones, no request that is gone is queued. -/
theorem partition_step (td : rohie_data) (lg : ledger) (op : sched_op)
    (ha : op_allowed td op = true) (hd : nodes_distinct td)
    (hl : ∀ i, i ∈ lg.live ↔ i ∈ queued_ids td) (hg : ∀ i ∈ lg.gone, i ∉ queued_ids td) :
    nodes_distinct (apply_op td op) ∧
    (∀ i, i ∈ (book_op td lg op).live ↔ i ∈ queued_ids (apply_op td op)) ∧
    (∀ i ∈ (book_op td lg op).gone, i ∉ queued_ids (apply_op td op)) := by
  cases op with
  | enqueue rq now =>
    simp only [op_allowed, Option.isNone_iff_eq_none] at ha
    have hnot := (find_rq_eq_none_iff td rq.id).1 ha
    have hp := queued_ids_add_request td rq now
    simp only [apply_op, book_op]
    refine ⟨?_, ?_, ?_⟩
    · unfold nodes_distinct
      show (queued_ids (rohie_add_request td rq now)).Nodup
      rw [hp.nodup_iff, List.nodup_cons]
      exact ⟨hnot, hd⟩
    · intro i
      rw [hp.mem_iff, List.mem_cons, List.mem_cons, hl]
    · intro i hi
      rw [hp.mem_iff, List.mem_cons]
      simp only [List.mem_filter, bne_iff_ne, ne_eq] at hi
      rintro (h | h)
      · exact hi.2 h
      · exact hg i hi.1 h
  | dispatch now =>
    simp only [apply_op, book_op]
    have e := all_rqs_dispatch_requests td now
    refine ⟨nodes_distinct_dispatch_requests td now hd, ?_, ?_⟩
    · intro i
      unfold queued_ids
      rw [e]
      cases (rohie_dispatch_requests td now).2 with
      | none => exact hl i
      | some rq =>
        simp only [List.mem_filter, bne_iff_ne, ne_eq]
        rw [mem_ids_list_del, hl]
        rfl
    · intro i hi
      unfold queued_ids
      rw [e]
      cases hr : (rohie_dispatch_requests td now).2 with
      | none => rw [hr] at hi; exact hg i hi
      | some rq =>
        rw [hr] at hi
        simp only [List.mem_cons] at hi
        simp only
        rw [mem_ids_list_del]
        rintro ⟨h1, h2⟩
        rcases hi with hi | hi
        · exact h2 hi
        · exact hg i hi h1
  | merge rq next =>
    simp only [op_allowed, Bool.and_eq_true, decide_eq_true_eq] at ha
    obtain ⟨⟨h1, h2⟩, hne⟩ := ha
    obtain ⟨r, hr⟩ := Option.isSome_iff_exists.1 h1
    obtain ⟨n, hn⟩ := Option.isSome_iff_exists.1 h2
    obtain ⟨m1, m2⟩ := queued_ids_merged td rq next r n hd hr hn hne
    simp only [apply_op, book_op]
    refine ⟨m1, ?_, ?_⟩
    · intro i
      simp only [List.mem_filter, bne_iff_ne, ne_eq]
      rw [m2, hl]
    · intro i hi
      rw [m2]
      simp only [List.mem_cons] at hi
      rintro ⟨h3, h4⟩
      rcases hi with hi | hi
      · exact h4 hi
      · exact hg i hi h3

theorem partition_run (ops : List sched_op) :
    ∀ (td : rohie_data) (lg : ledger), ops_allowed td ops = true → nodes_distinct td →
      (∀ i, i ∈ lg.live ↔ i ∈ queued_ids td) → (∀ i ∈ lg.gone, i ∉ queued_ids td) →
      nodes_distinct (run_ops td ops) ∧
      (∀ i, i ∈ (run_book td lg ops).live ↔ i ∈ queued_ids (run_ops td ops)) ∧
      (∀ i ∈ (run_book td lg ops).gone, i ∉ queued_ids (run_ops td ops)) := by
  induction ops with
  | nil => intro td lg _ hd hl hg; exact ⟨hd, hl, hg⟩
  | cons op ops ih =>
    intro td lg ha hd hl hg
    simp only [ops_allowed, Bool.and_eq_true] at ha
    obtain ⟨s1, s2, s3⟩ := partition_step td lg op ha.1 hd hl hg
    exact ih (apply_op td op) (book_op td lg op) ha.2 s1 s2 s3

/-- C11: after every sequence of enqueue, dispatch and merge calls that starts on the
empty scheduler and respects the preconditions (a request that is added is not queued,
two requests that are merged are distinct and queued), no request occurs twice in the
four lists; a request that is gone (its last event is a dispatch or an absorption by a
merge) occurs in no list; and a live request (added and not gone since) occurs once,
in exactly one list. -/
theorem partition_invariant (HZ : Int) (starved0 : Nat) (writes_starved0 : Int)
    (ops : List sched_op)
    (h : ops_allowed (rohie_init_queue HZ starved0 writes_starved0) ops = true) :
    nodes_distinct (run_ops (rohie_init_queue HZ starved0 writes_starved0) ops) ∧
    (∀ i ∈ (run_book (rohie_init_queue HZ starved0 writes_starved0) (ledger.mk [] []) ops).gone,
      (queued_ids (run_ops (rohie_init_queue HZ starved0 writes_starved0) ops)).count i = 0) ∧
    (∀ i ∈ (run_book (rohie_init_queue HZ starved0 writes_starved0) (ledger.mk [] []) ops).live,
      (queued_ids (run_ops (rohie_init_queue HZ starved0 writes_starved0) ops)).count i = 1 ∧
      ∃ s d, i ∈ (fifo_list (run_ops (rohie_init_queue HZ starved0 writes_starved0) ops)
          s d).map request.id ∧
        ∀ s1 d1, i ∈ (fifo_list (run_ops (rohie_init_queue HZ starved0 writes_starved0) ops)
          s1 d1).map request.id → s1 = s ∧ d1 = d) := by
  have hinit : queued_ids (rohie_init_queue HZ starved0 writes_starved0) = [] := rfl
  obtain ⟨p1, p2, p3⟩ := partition_run ops (rohie_init_queue HZ starved0 writes_starved0)
    (ledger.mk [] []) h (by unfold nodes_distinct; exact List.nodup_nil)
    (by intro i; rw [hinit])
    (by intro i hi; simp at hi)
  refine ⟨p1, ?_, ?_⟩
  · intro i hi
    exact List.count_eq_zero.2 (p3 i hi)
  · intro i hi
    have hm := (p2 i).1 hi
    refine ⟨List.count_eq_one_of_mem p1 hm, ?_⟩
    unfold queued_ids at hm
    obtain ⟨x, hx, rfl⟩ := List.mem_map.1 hm
    obtain ⟨s, d, hxs⟩ := (mem_all_rqs _ x).1 hx
    refine ⟨s, d, List.mem_map_of_mem request.id hxs, ?_⟩
    intro s1 d1 h1
    obtain ⟨y, hy, hyx⟩ := List.mem_map.1 h1
    by_contra hne
    exact nodes_distinct_disjoint _ p1 s d s1 d1 hne x y hxs hy hyx.symm

/-- The C11 statement for the calls `ex_ops` on a fresh scheduler: request 3 is live,
requests 1 and 2 are gone. -/
theorem partition_invariant_witness :
    ops_allowed (rohie_init_queue 100 0 1) ex_ops = true ∧
    run_book (rohie_init_queue 100 0 1) (ledger.mk [] []) ex_ops = ledger.mk [3] [2, 1] ∧
    queued_ids (run_ops (rohie_init_queue 100 0 1) ex_ops) = [3] ∧
    nodes_distinct (run_ops (rohie_init_queue 100 0 1) ex_ops) :=
  ⟨by decide, by decide, by decide, (partition_invariant 100 0 1 ex_ops (by decide)).1⟩

end Rohie
